import Mathlib

/-!
# Verification of the telemetry-demo voice-agent core

Shallow embedding of the turn-taking controller in `src/agent/worker.py` and of
the retention logic in `src/metrics/latency_collector.py`, together with proofs
settling the frozen claims about the natural-language specification.

Timestamps (Python `time.time()` floats) are embedded as rationals `ℚ`;
Python `int(·)` truncation toward zero is `pyInt`.  Python truthiness of an
optional float (`if ts:`) is `pyTruthy`; truthiness of a string is `truthyStr`.
The asynchronous session is embedded as a small-step machine: each atomic block
between `await` suspension points of `worker.py` is one step, and a trace is an
arbitrary interleaving of the session's tasks with nondecreasing wall-clock
times.
-/

/-- Python `int(q)` on a float: truncation toward zero. -/
def pyInt (q : ℚ) : ℤ := if q < 0 then -((-q).floor) else q.floor

/-- Python truthiness of an optional float: `None` and `0.0` are falsy. -/
def pyTruthy : Option ℚ → Bool
  | none => false
  | some x => decide (x ≠ 0)

/-- Python truthiness of an optional string: `None` and `""` are falsy. -/
def truthyStr : Option String → Bool
  | none => false
  | some s => decide (s ≠ "")

/-- Python `str.strip()`: drop leading and trailing whitespace. -/
def pyStrip (s : String) : String :=
  ⟨((s.data.dropWhile Char.isWhitespace).reverse.dropWhile
      Char.isWhitespace).reverse⟩

/-- `" ".join(l).strip()` as used by `STTStream.simulate_stt`. -/
def joinStrip (l : List String) : String := pyStrip (String.intercalate " " l)

/-- `a ≤ b` on optional timestamps, vacuously true when either is absent. -/
def optLe : Option ℚ → Option ℚ → Prop
  | some a, some b => a ≤ b
  | _, _ => True

instance : DecidableRel optLe := fun a b => by
  cases a <;> cases b <;> simp [optLe] <;> infer_instance

/-- All values held by an optional timestamp are `≤ t`. -/
def optValLe (o : Option ℚ) (t : ℚ) : Prop := ∀ x ∈ o, x ≤ t

/-! ## Audio frames and the VAD (worker.py lines 56-75) -/

/-- A raw PCM frame, as a byte list (only its length matters to the model). -/
abbrev AudioFrame := List ℕ

def SAMPLE_RATE : ℕ := 16000
def FRAME_MS : ℕ := 20
/-- `int(SAMPLE_RATE * (FRAME_MS / 1000.0)) * 2` = 640 bytes, 16-bit mono PCM. -/
def FRAME_BYTES : ℕ := SAMPLE_RATE * FRAME_MS / 1000 * 2

/-- Boundary model of the third-party `webrtcvad` classifier: `Vad.is_speech`
accepts only frames of 10/20/30 ms at the configured sample rate (320, 640 or
960 bytes at 16 kHz) and raises an error for any other length.  The
speech/silence decision on an accepted frame is an abstract parameter
`classify`; the repository code adds no validation of its own. -/
def webrtcValidLength (n : ℕ) : Bool := n == 320 || n == 640 || n == 960

def vadIsSpeech (classify : AudioFrame → Bool) (frame : AudioFrame) :
    Except String Bool :=
  if webrtcValidLength frame.length then .ok (classify frame)
  else .error "webrtcvad: invalid frame length"

/-- `VADDetector.__init__`: `active = False`, `speech_start_ts = None`. -/
structure VADDetector where
  active : Bool
  speech_start_ts : Option ℚ
deriving DecidableEq

def vadInit : VADDetector := { active := false, speech_start_ts := none }

/-- `VADDetector.process(frame, ts)` (worker.py 66-75), with the webrtcvad
speech/silence verdict already computed as `isSpeech`.  Returns the updated
detector and the optional speech-start event. -/
def VADDetector.process (st : VADDetector) (isSpeech : Bool) (ts : ℚ) :
    VADDetector × Option ℚ :=
  if isSpeech && !st.active then
    ({ active := true, speech_start_ts := some ts }, some ts)
  else if !isSpeech && st.active then
    ({ st with active := false }, none)
  else (st, none)

/-- Feed a sequence of (frame, timestamp) pairs through one detector,
collecting the per-frame results of `process`. -/
def runVAD (classify : AudioFrame → Bool) (st : VADDetector) :
    List (AudioFrame × ℚ) → List (Option ℚ)
  | [] => []
  | f :: r =>
      let pr := st.process (classify f.1) f.2
      pr.2 :: runVAD classify pr.1 r

/-! ## STTStream (worker.py lines 77-106) -/

/-- `STTStream.wait_final(timeout=5.0)`: suspends until the `_final` event or
the timeout; `finalizedWithinTimeout` abstracts whether the event fired within
the (default 5 s) timeout.  On timeout `asyncio.TimeoutError` is caught and
`None` returned; otherwise the stored `final_transcript` is returned. -/
def wait_final (finalizedWithinTimeout : Bool)
    (final_transcript : Option String) : Option String :=
  if finalizedWithinTimeout then final_transcript else none

/-! ## LatencyTurn (worker.py lines 134-160) -/

structure LatencyTurn where
  speech_start_ts : Option ℚ := none
  stt_first_partial_ts : Option ℚ := none
  stt_final_ts : Option ℚ := none
  agent_decision_ts : Option ℚ := none
  tts_first_byte_ts : Option ℚ := none
  playback_start_ts : Option ℚ := none
deriving DecidableEq

instance : Inhabited LatencyTurn := ⟨{}⟩

/-- `LatencyTurn._ms(ts)`: `int(ts * 1000) if ts else None`.  Note the Python
truthiness test: a stored `0.0` produces `None`, not `0`. -/
def pyMs : Option ℚ → Option ℤ
  | some ts => if ts = 0 then none else some (pyInt (ts * 1000))
  | none => none

/-- `LatencyTurn._delta(a, b)`: `int((b - a) * 1000) if a and b else None`. -/
def pyDelta (a b : Option ℚ) : Option ℤ :=
  if pyTruthy a && pyTruthy b then some (pyInt ((b.getD 0 - a.getD 0) * 1000))
  else none

/-- The JSON payload produced by `LatencyTurn.to_dict` (ms integers or null). -/
structure TurnDict where
  speech_start_ms : Option ℤ
  stt_first_partial_ms : Option ℤ
  stt_final_ms : Option ℤ
  agent_decision_ms : Option ℤ
  tts_first_byte_ms : Option ℤ
  playback_start_ms : Option ℤ
  round_trip_ms : Option ℤ
deriving DecidableEq

/-- `LatencyTurn.to_dict` (worker.py 143-152). -/
def LatencyTurn.to_dict (t : LatencyTurn) : TurnDict where
  speech_start_ms := pyMs t.speech_start_ts
  stt_first_partial_ms := pyMs t.stt_first_partial_ts
  stt_final_ms := pyMs t.stt_final_ts
  agent_decision_ms := pyMs t.agent_decision_ts
  tts_first_byte_ms := pyMs t.tts_first_byte_ts
  playback_start_ms := pyMs t.playback_start_ts
  round_trip_ms := pyDelta t.speech_start_ts t.playback_start_ts

/-- The ordered milestone list of an emitted turn (spec §8, claim C4). -/
def milestones (t : LatencyTurn) : List (Option ℚ) :=
  [t.speech_start_ts, t.stt_first_partial_ts, t.stt_final_ts,
   t.agent_decision_ts, t.tts_first_byte_ts, t.playback_start_ts]

/-- The milestone list without `stt_first_partial_ts`. -/
def milestones5 (t : LatencyTurn) : List (Option ℚ) :=
  [t.speech_start_ts, t.stt_final_ts, t.agent_decision_ts,
   t.tts_first_byte_ts, t.playback_start_ts]

/-- Every present pair of the six milestones is ordered. -/
def Mono6 (t : LatencyTurn) : Prop := (milestones t).Pairwise optLe

/-- Every present pair of the five milestones other than the first partial is
ordered. -/
def Mono5 (t : LatencyTurn) : Prop := (milestones5 t).Pairwise optLe

instance (t : LatencyTurn) : Decidable (Mono6 t) :=
  inferInstanceAs (Decidable ((milestones t).Pairwise optLe))

instance (t : LatencyTurn) : Decidable (Mono5 t) :=
  inferInstanceAs (Decidable ((milestones5 t).Pairwise optLe))

/-! ## Reply policy (worker.py lines 179-182, 211-215) -/

/-- `AgentSession.next_script_line`: `lines[index % len(lines)]`, then
`index += 1`.  `AGENT_SCRIPTED_LINES` is always a nonempty list (Python
`str.split` never returns an empty list). -/
def next_script_line (lines : List String) (index : ℕ) : String × ℕ :=
  (lines.getD (index % lines.length) "", index + 1)

/-- Iterate `next_script_line` `n` times from a given index, collecting the
produced lines. -/
def scriptedReplies (lines : List String) : ℕ → ℕ → List String
  | _, 0 => []
  | index, n + 1 =>
      let pr := next_script_line lines index
      pr.1 :: scriptedReplies lines pr.2 n

/-- Configuration surface consumed by the session (env variables). -/
structure Config where
  bargeIn : Bool
  responseModeEcho : Bool
  scriptedLines : List String
deriving DecidableEq

/-- `AgentSession._build_reply` (worker.py 211-215): echo mode wraps the
transcript, otherwise the next scripted line is taken (advancing the
per-session index).  Returns the reply and the new script index. -/
def build_reply (cfg : Config) (transcript : String) (index : ℕ) :
    String × ℕ :=
  if cfg.responseModeEcho then ("You said: " ++ transcript ++ ". Nice!", index)
  else next_script_line cfg.scriptedLines index

/-! ## TTSStream (worker.py lines 108-132) -/

/-- `duration_sec = min(2.5, 0.06 * len(text))`;
`total_frames = int(duration_sec * 1000 / FRAME_MS)`.  In exact arithmetic
`min(2.5, 0.06·L) · 1000 / 20 = min(125, 3·L)`, which is already an integer,
so the `int(·)` truncation is the identity.  (Binary floating-point rounding
in the source can shift the count by one frame; the claims only depend on the
count being zero exactly when the text is empty, which is unaffected.) -/
def totalFrames (text : String) : ℕ := min 125 (3 * text.length)

/-- One `TTSStream` object together with its consuming `run()` task
(`_start_tts` creates them in pairs, worker.py 217-240).  `framesSent` counts
frames the generator has yielded (model instrumentation). -/
structure TTSUnit where
  text : String
  cancelFlag : Bool
  first_audio_ts : Option ℚ
  framesLeft : ℕ
  framesSent : ℕ
  firstChunk : Bool
  done : Bool
deriving DecidableEq

/-- The default unit stands for "no such task": already done. -/
instance : Inhabited TTSUnit :=
  ⟨{ text := "", cancelFlag := false, first_audio_ts := none, framesLeft := 0,
     framesSent := 0, firstChunk := true, done := true }⟩

/-- `TTSStream.cancel` (worker.py 131-132): set the cooperative flag. -/
def TTSUnit.cancel (u : TTSUnit) : TTSUnit := { u with cancelFlag := true }

/-- A fresh `TTSStream` for reply `text` with its `run()` task. -/
def newTTSUnit (text : String) : TTSUnit :=
  { text := text, cancelFlag := false, first_audio_ts := none,
    framesLeft := totalFrames text, framesSent := 0, firstChunk := true,
    done := false }

/-! ## The session machine (worker.py lines 169-244)

One step of the machine is one atomic block between `await` suspension points:

* `speech` — the speech-start branch of `handle_audio_frame` (184-196):
  barge-in cancellation, fresh `LatencyTurn`, spawn of `_run_stt_collect`.
* `stt i` — the next block of `_run_stt_collect` task `i` (198-209):
  phase 0 `simulate_stt` records the first partial; phase 1 `simulate_stt`
  finalizes and the collector copies the partial into the active turn;
  phase 2 `wait_final` returns and the final branch runs (`stt_final_ts`,
  reply, `agent_decision_ts`, `_start_tts`).
* `tts k` — one loop iteration of unit `k`'s generator + `run()` consumer
  (113-129, 221-239): cancel check, frame yield, first-chunk metrics emission.
-/

/-- `_run_stt_collect`'s task state; `phase` counts completed await blocks
(3 = finished).  `turnIdx` records which turn spawned the task (the superseded
turn's task keeps running after barge-in — spec §9's documented gap). -/
structure STTTask where
  turnIdx : ℕ
  phase : ℕ
  first_partial_ts : Option ℚ
  final_transcript : Option String
  accum : List String
deriving DecidableEq

/-- The default task stands for "no such task": already finished. -/
instance : Inhabited STTTask :=
  ⟨{ turnIdx := 0, phase := 3, first_partial_ts := none,
     final_transcript := none, accum := [] }⟩

/-- A metrics event posted to `METRICS_ENDPOINT` (the wire payload is
`snapshot.to_dict` plus room/identity/timestamp).  `turnIdx` and `unitIdx`
record which turn was read and which synthesis task emitted — model
instrumentation for stating per-turn/per-stream counts. -/
structure Emission where
  turnIdx : ℕ
  unitIdx : ℕ
  snapshot : LatencyTurn
deriving DecidableEq

/-- The `AgentSession` state plus its live tasks.  Collections are functions
out of `ℕ` with explicit counts; indices ≥ the count read as `default`
("no such object"). -/
structure SessionSt where
  vad : VADDetector
  turns : ℕ → LatencyTurn
  nTurns : ℕ
  sttTasks : ℕ → STTTask
  nTasks : ℕ
  ttsUnits : ℕ → TTSUnit
  nUnits : ℕ
  activeTurn : Option ℕ
  currentTts : Option ℕ
  scriptIndex : ℕ
  emissions : List Emission
  staleWrites : ℕ

/-- Bounds-checked read of a transcription task. -/
def SessionSt.taskAt (st : SessionSt) (i : ℕ) : STTTask :=
  if i < st.nTasks then st.sttTasks i else default

/-- Bounds-checked read of a synthesis unit. -/
def SessionSt.unitAt (st : SessionSt) (k : ℕ) : TTSUnit :=
  if k < st.nUnits then st.ttsUnits k else default

def SessionSt.setTurn (st : SessionSt) (j : ℕ) (x : LatencyTurn) : SessionSt :=
  { st with turns := Function.update st.turns j x }

def SessionSt.setTask (st : SessionSt) (i : ℕ) (x : STTTask) : SessionSt :=
  { st with sttTasks := Function.update st.sttTasks i x }

def SessionSt.setUnit (st : SessionSt) (k : ℕ) (x : TTSUnit) : SessionSt :=
  { st with ttsUnits := Function.update st.ttsUnits k x }

/-- `AgentSession.__init__` (worker.py 170-177). -/
def initSt : SessionSt where
  vad := vadInit
  turns := fun _ => default
  nTurns := 0
  sttTasks := fun _ => default
  nTasks := 0
  ttsUnits := fun _ => default
  nUnits := 0
  activeTurn := none
  currentTts := none
  scriptIndex := 0
  emissions := []
  staleWrites := 0

/-- `AgentSession._frame_energy`: the crude placeholder "transcript" token. -/
def frame_energy (_f : AudioFrame) : String := "audio"

/-- The barge-in guard of `handle_audio_frame` (worker.py 190-192):
`if AGENT_BARGE_IN and self.current_tts and self.tts_task and not
self.tts_task.done(): self.current_tts.cancel()`. -/
def bargeCancel (cfg : Config) (st : SessionSt) : SessionSt :=
  match st.currentTts with
  | some k =>
      if cfg.bargeIn && !(st.unitAt k).done then
        st.setUnit k (st.unitAt k).cancel
      else st
  | none => st

/-- The speech-start branch of `handle_audio_frame` (worker.py 187-196):
if barge-in is enabled and `current_tts`/`tts_task` exist with the task not
done, `cancel()` the stream; then replace `active_turn` by a fresh
`LatencyTurn` with the new speech-start timestamp and spawn a
`_run_stt_collect` task seeded with `[_frame_energy(frame)]`. -/
def speechStartStep (cfg : Config) (st : SessionSt) (ts : ℚ)
    (accum : List String) : SessionSt :=
  let st' := bargeCancel cfg st
  { st' with
    turns := Function.update st'.turns st'.nTurns
      { speech_start_ts := some ts }
    nTurns := st'.nTurns + 1
    activeTurn := some st'.nTurns
    sttTasks := Function.update st'.sttTasks st'.nTasks
      { turnIdx := st'.nTurns, phase := 0, first_partial_ts := none,
        final_transcript := none, accum := accum }
    nTasks := st'.nTasks + 1 }

/-- `AgentSession.handle_audio_frame` (worker.py 184-196): classify the frame
through webrtcvad (which rejects invalid lengths), run the VAD edge detector,
and on a truthy speech-start event run the speech-start branch.  There is no
frame-size handling in the repository code: a classifier error propagates to
the caller. -/
def handle_audio_frame (cfg : Config) (classify : AudioFrame → Bool)
    (st : SessionSt) (frame : AudioFrame) (now : ℚ) :
    Except String SessionSt :=
  match vadIsSpeech classify frame with
  | .error e => .error e
  | .ok isSp =>
      let pr := st.vad.process isSp now
      let st' := { st with vad := pr.1 }
      if pyTruthy pr.2 then
        .ok (speechStartStep cfg st' (pr.2.getD 0) [frame_energy frame])
      else .ok st'

/-- The tail of `_run_stt_collect` after `wait_final` returns (worker.py
205-209) with the task already marked finished: on a truthy final transcript
and a present active turn, set `stt_final_ts`, compute the reply, set
`agent_decision_ts` and start a fresh TTS stream/task; otherwise do nothing
(the turn is silently abandoned).  `staleWrites` counts writes made on behalf
of a superseded turn (model instrumentation). -/
def sttFinish (cfg : Config) (st : SessionSt) (tk : STTTask)
    (ft : Option String) (now now2 : ℚ) : SessionSt :=
  match st.activeTurn with
  | some j =>
      if truthyStr ft then
        let tn := { st.turns j with
          stt_final_ts := some now
          agent_decision_ts := some now2 }
        let r := build_reply cfg (ft.getD "") st.scriptIndex
        let st1 := st.setTurn j tn
        let st2 := { st1 with
          scriptIndex := r.2
          ttsUnits := Function.update st1.ttsUnits st1.nUnits (newTTSUnit r.1)
          nUnits := st1.nUnits + 1
          currentTts := some st1.nUnits }
        if tk.turnIdx = j then st2
        else { st2 with staleWrites := st2.staleWrites + 1 }
      else st
  | none => st

/-- One await-delimited block of `_run_stt_collect` task `i` (worker.py
88-96, 198-209).  `now`/`now2` are the wall-clock values of the block's
`time.time()` calls. -/
def sttStep (cfg : Config) (st : SessionSt) (i : ℕ) (now now2 : ℚ) :
    SessionSt :=
  let tk := st.taskAt i
  match tk.phase with
  | 0 =>
      -- simulate_stt first sleep: `if not self.first_partial_ts: ... = time.time()`
      st.setTask i { tk with
        phase := 1
        first_partial_ts :=
          if pyTruthy tk.first_partial_ts then tk.first_partial_ts
          else some now }
  | 1 =>
      -- simulate_stt second sleep: final transcript + collector's partial copy
      let tk1 := { tk with
        phase := 2
        final_transcript := some (joinStrip tk.accum) }
      let st1 := st.setTask i tk1
      match st1.activeTurn with
      | some j =>
          if pyTruthy tk.first_partial_ts &&
             !pyTruthy (st1.turns j).stt_first_partial_ts then
            let st2 := st1.setTurn j
              { st1.turns j with stt_first_partial_ts := tk.first_partial_ts }
            if tk.turnIdx = j then st2
            else { st2 with staleWrites := st2.staleWrites + 1 }
          else st1
      | none => st1
  | 2 =>
      -- wait_final returns (the _final event was set in phase 1)
      let st1 := st.setTask i { tk with phase := 3 }
      sttFinish cfg st1 { tk with phase := 3 }
        (wait_final true tk.final_transcript) now now2
  | _ => st

/-- One loop iteration of TTS unit `k` (worker.py 113-129 with the consumer
body 221-239): check the cancel flag, stop if set or exhausted, otherwise
yield one frame; on the task's first chunk, stamp `tts_first_byte_ts` and
`playback_start_ts` on the active turn and emit the metrics event. -/
def ttsStep (st : SessionSt) (k : ℕ) (now : ℚ) : SessionSt :=
  let u := st.unitAt k
  if u.done then st
  else if u.cancelFlag then st.setUnit k { u with done := true }
  else if u.framesLeft = 0 then st.setUnit k { u with done := true }
  else
    let fa := match u.first_audio_ts with
      | none => some now
      | some x => some x
    let u1 := { u with
      framesLeft := u.framesLeft - 1
      first_audio_ts := fa
      framesSent := u.framesSent + 1 }
    match st.activeTurn, u.firstChunk with
    | some j, true =>
        let tn := { st.turns j with
          tts_first_byte_ts := fa
          playback_start_ts := fa }
        let st1 := (st.setTurn j tn).setUnit k { u1 with firstChunk := false }
        { st1 with emissions := st1.emissions ++ [⟨j, k, tn⟩] }
    | _, _ => st.setUnit k u1

/-- A schedulable atomic block with its wall-clock time(s). -/
inductive Act where
  | speech (now : ℚ)
  | stt (i : ℕ) (now now2 : ℚ)
  | tts (k : ℕ) (now : ℚ)
deriving DecidableEq

def step (cfg : Config) (st : SessionSt) : Act → SessionSt
  | .speech now => speechStartStep cfg st now ["audio"]
  | .stt i now now2 => sttStep cfg st i now now2
  | .tts k now => ttsStep st k now

def run (cfg : Config) (st : SessionSt) (tr : List Act) : SessionSt :=
  tr.foldl (step cfg) st

def actStart : Act → ℚ
  | .speech now => now
  | .stt _ now _ => now
  | .tts _ now => now

def actEnd : Act → ℚ
  | .speech now => now
  | .stt _ _ now2 => now2
  | .tts _ now => now

/-- A trace is valid from lower time bound `t` if wall-clock times are
positive and nondecreasing along it (and within each block). -/
def validFrom : ℚ → List Act → Bool
  | _, [] => true
  | t, a :: r =>
      decide (t ≤ actStart a) && decide (0 < actStart a) &&
      decide (actStart a ≤ actEnd a) && validFrom (actEnd a) r

/-- Metrics events in `st` emitted by synthesis unit `k`. -/
def countUnit (st : SessionSt) (k : ℕ) : ℕ :=
  st.emissions.countP (fun e => e.unitIdx == k)

/-- Metrics events in `st` emitted for turn `j`. -/
def countTurn (st : SessionSt) (j : ℕ) : ℕ :=
  st.emissions.countP (fun e => e.turnIdx == j)

/-! ## Latency collector (latency_collector.py lines 39-75) -/

/-- The fields of an ingested event that `_prune` reads; a JSON field is
`none` when absent (or null).  Other payload fields do not affect retention. -/
structure CollectorEvent where
  speech_start_ms : Option ℤ
  timestamp : Option ℤ
deriving DecidableEq

/-- `e.get("speech_start_ms") or e.get("timestamp", 0)`: Python `or` falls
through on falsy values, so a null/absent/zero `speech_start_ms` defers to
`timestamp` (defaulting to 0). -/
def eventKey (e : CollectorEvent) : ℤ :=
  match e.speech_start_ms with
  | some v => if v = 0 then e.timestamp.getD 0 else v
  | none => e.timestamp.getD 0

/-- `_prune(now_ms)` (latency_collector.py 47-51): keep only events whose key
is at least `now_ms - WINDOW_SECONDS * 1000`. -/
def prune (windowSeconds nowMs : ℤ) (evs : List CollectorEvent) :
    List CollectorEvent :=
  evs.filter (fun e => decide (eventKey e ≥ nowMs - windowSeconds * 1000))

/-- `POST /ingest` (latency_collector.py 65-75): append the payload, then
prune with the request's `now_ms`. -/
def ingest (windowSeconds nowMs : ℤ) (payload : CollectorEvent)
    (evs : List CollectorEvent) : List CollectorEvent :=
  prune windowSeconds nowMs (evs ++ [payload])

/-- The buffer after `GET /summary` or `GET /events` (latency_collector.py
77-113): both prune with the request's `now_ms` before reading. -/
def pruneOnRead (windowSeconds nowMs : ℤ) (evs : List CollectorEvent) :
    List CollectorEvent :=
  prune windowSeconds nowMs evs

/-! ## Invariants of the session machine -/

/-- Emission bookkeeping invariant: each synthesis task has emitted exactly
once iff it has yielded at least one frame; its `first_chunk` flag tracks
"no frame yielded yet"; and units only exist while a turn is active. -/
structure EmitInv (st : SessionSt) : Prop where
  cnt : ∀ k, countUnit st k = min 1 (st.unitAt k).framesSent
  fchunk : ∀ k, (st.unitAt k).firstChunk = ((st.unitAt k).framesSent == 0)
  faud : ∀ k, (st.unitAt k).first_audio_ts.isSome
    = ((st.unitAt k).framesSent != 0)
  uact : 0 < st.nUnits → st.activeTurn.isSome

/-- Per-turn well-formedness: the speech-start stamp is always present;
`stt_final_ts` and `agent_decision_ts` are written together and in order. -/
def TurnWF (tn : LatencyTurn) : Prop :=
  tn.speech_start_ts.isSome ∧
  (tn.stt_final_ts.isSome ↔ tn.agent_decision_ts.isSome) ∧
  optLe tn.speech_start_ts tn.stt_final_ts ∧
  optLe tn.stt_final_ts tn.agent_decision_ts

/-- All timestamps stored in a turn are at most `t`. -/
def TurnLe (tn : LatencyTurn) (t : ℚ) : Prop :=
  optValLe tn.speech_start_ts t ∧ optValLe tn.stt_first_partial_ts t ∧
  optValLe tn.stt_final_ts t ∧ optValLe tn.agent_decision_ts t ∧
  optValLe tn.tts_first_byte_ts t ∧ optValLe tn.playback_start_ts t

/-- The main inductive invariant of a session run, relative to a lower bound
`t` on all future wall-clock times.  The `staleWrites = 0` guarded clauses
capture what additionally holds while no transcription task of a superseded
turn has written into the session. -/
structure SessInv (st : SessionSt) (t : ℚ) : Prop where
  counts : st.nTasks = st.nTurns
  activeOk : st.activeTurn = if st.nTurns = 0 then none else some (st.nTurns - 1)
  taskIdx : ∀ i < st.nTasks, (st.sttTasks i).turnIdx = i
  turnStamp : ∀ j < st.nTurns, TurnLe (st.turns j) t
  taskStamp : ∀ i < st.nTasks, optValLe (st.sttTasks i).first_partial_ts t
  unitStamp : ∀ k < st.nUnits, optValLe (st.ttsUnits k).first_audio_ts t
  turnsWF : ∀ j < st.nTurns, TurnWF (st.turns j)
  taskPartGe : st.staleWrites = 0 → ∀ i < st.nTasks,
    ∀ p ∈ (st.sttTasks i).first_partial_ts,
      ∀ s ∈ (st.turns (st.sttTasks i).turnIdx).speech_start_ts, s ≤ p
  finalPhase : st.staleWrites = 0 → ∀ j < st.nTurns,
    (st.turns j).stt_final_ts.isSome → (st.sttTasks j).phase = 3
  turnPart : st.staleWrites = 0 → ∀ j < st.nTurns,
    ∀ p ∈ (st.turns j).stt_first_partial_ts,
      (∀ s ∈ (st.turns j).speech_start_ts, s ≤ p) ∧
      (∀ f ∈ (st.turns j).stt_final_ts, p ≤ f)
  emisWF : ∀ e ∈ st.emissions,
    Mono5 e.snapshot ∧ (st.staleWrites = 0 → Mono6 e.snapshot)

/-! ## Concrete configurations and traces used as witnesses/counterexamples -/

/-- The default configuration: barge-in enabled, echo reply mode. -/
def cfgE : Config :=
  { bargeIn := true, responseModeEcho := true,
    scriptedLines := ["Hello.", "How can I help?", "Goodbye."] }

/-- Barge-in at t=0.16 while turn 0's transcription task (spawned at t=0.10,
first partial at t=0.15) is still pending; the stale task then completes
against turn 1, and turn 1's own task completes afterwards.  Both completions
start a synthesis stream, so the completed turn 1 is emitted twice, the first
time carrying the stale partial timestamp 0.15 < its speech start 0.16. -/
def staleTrace : List Act :=
  [ .speech 1,
    .stt 0 2 2,
    .speech 3,
    .stt 0 4 4,
    .stt 0 5 6,
    .tts 0 7,
    .stt 1 8 8,
    .stt 1 9 9,
    .stt 1 10 11,
    .tts 1 12 ]

/-- The prefix of `staleTrace` up to the first (stale-data) emission. -/
def staleTrace1 : List Act := staleTrace.take 6

/-- A single undisturbed turn: speech start, transcription, reply, first
synthesized frame. -/
def plainTrace : List Act :=
  [ .speech 1,
    .stt 0 2 2,
    .stt 0 3 3,
    .stt 0 4 5,
    .tts 0 6 ]

/-- A turn whose synthesis task exists but has not yet produced a frame,
followed by a barge-in that cancels it. -/
def bargeTrace : List Act :=
  [ .speech 1,
    .stt 0 2 2,
    .stt 0 3 3,
    .stt 0 4 5,
    .speech 6 ]

/-- A single turn carried through to its first synthesized frame with no
barge-in: the metrics event for it is emitted with all six milestones
present. -/
def emitTrace : List Act :=
  [ .speech 1,
    .stt 0 2 2,
    .stt 0 3 3,
    .stt 0 4 5,
    .tts 0 6 ]

/-- Abbreviation for the turn record produced when a transcription finishes:
`stt_final_ts` and `agent_decision_ts` are stamped with the completion and
decision times.  Used only to state invariant-preservation lemmas
compactly. -/
def finishTurn (tn : LatencyTurn) (n1 n2 : ℚ) : LatencyTurn :=
  { tn with stt_final_ts := some n1, agent_decision_ts := some n2 }

/-- Abbreviation for the turn record produced by the first synthesized audio
chunk: `tts_first_byte_ts` and `playback_start_ts` are stamped with the
current time.  Used only to state invariant-preservation lemmas compactly. -/
def audioTurn (tn : LatencyTurn) (now : ℚ) : LatencyTurn :=
  { tn with tts_first_byte_ts := some now, playback_start_ts := some now }

/-! # Theorems -/

/-! ## VAD edge behaviour (C3) -/

theorem process_active (st : VADDetector) (b : Bool) (ts : ℚ) :
    (st.process b ts).1.active = b := by
  cases b <;> cases h : st.active <;> simp [VADDetector.process, h]

theorem process_snd (st : VADDetector) (b : Bool) (ts : ℚ) :
    (st.process b ts).2 = if b && !st.active then some ts else none := by
  cases b <;> cases h : st.active <;> simp [VADDetector.process, h]

theorem runVAD_getD (classify : AudioFrame → Bool) :
    ∀ (frames : List (AudioFrame × ℚ)) (st : VADDetector) (i : ℕ),
      i < frames.length →
      (runVAD classify st frames).getD i none =
        if classify (frames.getD i default).1 = true ∧
           ((i = 0 ∧ st.active = false) ∨
            (0 < i ∧ classify (frames.getD (i - 1) default).1 = false)) then
          some (frames.getD i default).2
        else none
  | [], _, i, h => by simp at h
  | f :: r, st, 0, _ => by
      simp only [runVAD, List.getD_cons_zero]
      rw [process_snd]
      rcases hb : classify f.1 <;> rcases ha : st.active <;> simp [hb, ha]
  | f :: r, st, i + 1, h => by
      simp only [runVAD, List.getD_cons_succ]
      rw [runVAD_getD classify r _ i (by simpa using h)]
      have hact : (st.process (classify f.1) f.2).1.active = classify f.1 :=
        process_active ..
      cases i with
      | zero => simp [hact]
      | succ m => simp

/-- C3: for any frame sequence fed to `VADDetector.process`, a non-None
speech-start timestamp (carrying that frame's timestamp) is returned on frame
`i` iff frame `i` classifies as speech and the preceding frame classified as
silence (or `i` is the first frame); in all other cases — falling edges or
unchanged state — `None` is returned, so there is exactly one event per
silence-to-speech rising edge. -/
theorem claim_c3_vad_edge (classify : AudioFrame → Bool)
    (frames : List (AudioFrame × ℚ)) (i : ℕ) (h : i < frames.length) :
    (runVAD classify vadInit frames).getD i none =
      if classify (frames.getD i default).1 = true ∧
         (i = 0 ∨ classify (frames.getD (i - 1) default).1 = false) then
        some (frames.getD i default).2
      else none := by
  rw [runVAD_getD classify frames vadInit i h]
  rcases Nat.eq_zero_or_pos i with h0 | h0
  · subst h0; simp [vadInit]
  · have hne : ¬(i = 0) := by omega
    simp [vadInit, hne, h0]

/-- Witness for C3: on frames classified (speech, silence, speech), the third
frame is a rising edge and returns its timestamp. -/
theorem claim_c3_witness :
    (runVAD (fun f => decide (f.length = 1)) vadInit
      [([5], (1 : ℚ)), ([], 2), ([7], 3)]).getD 2 none = some 3 := by
  have h := claim_c3_vad_edge (fun f => decide (f.length = 1))
    [([5], (1 : ℚ)), ([], 2), ([7], 3)] 2 (by decide)
  simpa using h

/-! ## LatencyTurn.to_dict (C5) -/

theorem pyMs_pos {o : Option ℚ} {a : ℚ} (h : o = some a) (ha : a ≠ 0) :
    pyMs o = some (pyInt (a * 1000)) := by subst h; simp [pyMs, ha]

theorem pyMs_falsy {o : Option ℚ} (h : pyTruthy o = false) : pyMs o = none := by
  cases o with
  | none => rfl
  | some a =>
      simp only [pyTruthy, decide_eq_false_iff_not, not_not] at h
      simp [pyMs, h]

theorem pyDelta_pos {a b : Option ℚ} {x y : ℚ} (ha : a = some x)
    (hb : b = some y) (hx : x ≠ 0) (hy : y ≠ 0) :
    pyDelta a b = some (pyInt ((y - x) * 1000)) := by
  subst ha; subst hb; simp [pyDelta, pyTruthy, hx, hy]

theorem pyDelta_falsy {a b : Option ℚ}
    (h : pyTruthy a = false ∨ pyTruthy b = false) : pyDelta a b = none := by
  rcases h with h | h <;> simp [pyDelta, h]

/-- C5 counterexample: the claim says each `*_ms` field and `round_trip_ms`
are the millisecond integers exactly when the underlying timestamps are
non-null.  `to_dict` actually uses Python truthiness (`if ts:`), so a stored
timestamp of exactly `0.0` — non-null — yields `None`: with
`speech_start_ts = 0` and `playback_start_ts = 1`, both non-null, the claim
demands `speech_start_ms = 0` and `round_trip_ms = 1000`, but the code
returns null for both. -/
theorem claim_c5_counterexample :
    ({ speech_start_ts := some 0, playback_start_ts := some 1 } :
        LatencyTurn).speech_start_ts.isSome = true ∧
    ({ speech_start_ts := some 0, playback_start_ts := some 1 } :
        LatencyTurn).playback_start_ts.isSome = true ∧
    ({ speech_start_ts := some 0, playback_start_ts := some 1 } :
        LatencyTurn).to_dict.speech_start_ms = none ∧
    ({ speech_start_ts := some 0, playback_start_ts := some 1 } :
        LatencyTurn).to_dict.round_trip_ms = none := by
  refine ⟨rfl, rfl, ?_, ?_⟩ <;> simp [LatencyTurn.to_dict, pyMs, pyDelta, pyTruthy]

/-- C5 amended: each `*_ms` field of the snapshot is the millisecond integer
of its timestamp exactly when that timestamp is non-null *and nonzero* (the
code tests Python truthiness, not nullness), and null otherwise; likewise
`round_trip_ms = int((playback_start_ts - speech_start_ts) * 1000)` exactly
when both timestamps are non-null and nonzero, else null. -/
theorem claim_c5_amended (t : LatencyTurn) :
    (∀ a b, t.speech_start_ts = some a → t.playback_start_ts = some b →
      a ≠ 0 → b ≠ 0 →
      t.to_dict.round_trip_ms = some (pyInt ((b - a) * 1000))) ∧
    ((pyTruthy t.speech_start_ts = false ∨
      pyTruthy t.playback_start_ts = false) →
      t.to_dict.round_trip_ms = none) ∧
    (∀ a, t.speech_start_ts = some a → a ≠ 0 →
      t.to_dict.speech_start_ms = some (pyInt (a * 1000))) ∧
    (pyTruthy t.speech_start_ts = false → t.to_dict.speech_start_ms = none) ∧
    (∀ a, t.stt_first_partial_ts = some a → a ≠ 0 →
      t.to_dict.stt_first_partial_ms = some (pyInt (a * 1000))) ∧
    (pyTruthy t.stt_first_partial_ts = false →
      t.to_dict.stt_first_partial_ms = none) ∧
    (∀ a, t.stt_final_ts = some a → a ≠ 0 →
      t.to_dict.stt_final_ms = some (pyInt (a * 1000))) ∧
    (pyTruthy t.stt_final_ts = false → t.to_dict.stt_final_ms = none) ∧
    (∀ a, t.agent_decision_ts = some a → a ≠ 0 →
      t.to_dict.agent_decision_ms = some (pyInt (a * 1000))) ∧
    (pyTruthy t.agent_decision_ts = false →
      t.to_dict.agent_decision_ms = none) ∧
    (∀ a, t.tts_first_byte_ts = some a → a ≠ 0 →
      t.to_dict.tts_first_byte_ms = some (pyInt (a * 1000))) ∧
    (pyTruthy t.tts_first_byte_ts = false →
      t.to_dict.tts_first_byte_ms = none) ∧
    (∀ a, t.playback_start_ts = some a → a ≠ 0 →
      t.to_dict.playback_start_ms = some (pyInt (a * 1000))) ∧
    (pyTruthy t.playback_start_ts = false →
      t.to_dict.playback_start_ms = none) := by
  refine ⟨fun a b ha hb hx hy => ?_, fun h => ?_,
    fun a ha hx => pyMs_pos ha hx, fun h => pyMs_falsy h,
    fun a ha hx => pyMs_pos ha hx, fun h => pyMs_falsy h,
    fun a ha hx => pyMs_pos ha hx, fun h => pyMs_falsy h,
    fun a ha hx => pyMs_pos ha hx, fun h => pyMs_falsy h,
    fun a ha hx => pyMs_pos ha hx, fun h => pyMs_falsy h,
    fun a ha hx => pyMs_pos ha hx, fun h => pyMs_falsy h⟩
  · exact pyDelta_pos ha hb hx hy
  · exact pyDelta_falsy h

/-- Witness for C5 amended: a turn with `speech_start_ts = 2` and
`playback_start_ts = 3` snapshots to `speech_start_ms = 2000` and
`round_trip_ms = 1000`. -/
theorem claim_c5_witness :
    ({ speech_start_ts := some 2, playback_start_ts := some 3 } :
        LatencyTurn).to_dict.round_trip_ms = some (pyInt ((3 - 2) * 1000)) ∧
    ({ speech_start_ts := some 2, playback_start_ts := some 3 } :
        LatencyTurn).to_dict.speech_start_ms = some (pyInt (2 * 1000)) :=
  ⟨(claim_c5_amended _).1 2 3 rfl rfl (by norm_num) (by norm_num),
   (claim_c5_amended _).2.2.1 2 rfl (by norm_num)⟩

/-! ## Scripted reply cycling (C7) -/

theorem scriptedReplies_getD (lines : List String) :
    ∀ (n index k : ℕ), k < n →
      (scriptedReplies lines index n).getD k "" =
        lines.getD ((index + k) % lines.length) ""
  | 0, _, k, h => by omega
  | n + 1, index, 0, _ => by
      simp [scriptedReplies, next_script_line]
  | n + 1, index, k + 1, h => by
      simp only [scriptedReplies, next_script_line, List.getD_cons_succ]
      rw [scriptedReplies_getD lines n (index + 1) k (by omega)]
      congr 2
      omega

/-- C7: in scripted reply mode, the n-th scripted reply (n ≥ 1, per-session
index starting at 0) is line `(n-1) mod L` of the configured script of length
L; in particular the script `["A","B","C"]` yields `A,B,C,A` over four
consecutive replies. -/
theorem claim_c7_script (lines : List String) (n : ℕ) (_h1 : lines ≠ [])
    (h2 : 1 ≤ n) :
    (scriptedReplies lines 0 n).getD (n - 1) "" =
      lines.getD ((n - 1) % lines.length) "" ∧
    scriptedReplies ["A", "B", "C"] 0 4 = ["A", "B", "C", "A"] := by
  refine ⟨?_, by decide⟩
  have h := scriptedReplies_getD lines n 0 (n - 1) (by omega)
  simpa using h

/-- Witness for C7: the fourth reply from `["A","B","C"]` is line
`3 mod 3 = 0`, i.e. `"A"`. -/
theorem claim_c7_witness :
    (scriptedReplies ["A", "B", "C"] 0 4).getD 3 "" =
      ["A", "B", "C"].getD (3 % 3) "" :=
  by simpa using (claim_c7_script ["A", "B", "C"] 4 (by decide) (by decide)).1

/-! ## Transcription timeout abandonment (C8) -/

/-- C8: an `STTStream` that produces no final transcript within the timeout
makes `wait_final` return `None` (the `asyncio.TimeoutError` branch), and the
turn is then silently abandoned: with a `None` final transcript the tail of
`_run_stt_collect` computes no reply, starts no synthesis, emits no
`LatencyTurn`, mutates no turn state and raises nothing — the session state
is returned unchanged (idle with respect to this turn). -/
theorem claim_c8_timeout :
    (∀ ft, wait_final false ft = none) ∧
    (∀ cfg st tk now now2, sttFinish cfg st tk none now now2 = st) := by
  refine ⟨fun ft => rfl, fun cfg st tk now now2 => ?_⟩
  unfold sttFinish
  cases st.activeTurn <;> simp [truthyStr]

/-! ## Collector retention (C10) -/

theorem mem_prune {w now : ℤ} {evs : List CollectorEvent}
    {e : CollectorEvent} (h : e ∈ prune w now evs) :
    now - w * 1000 ≤ eventKey e := by
  have := List.of_mem_filter h
  simpa [ge_iff_le] using this

/-- C10: after any `/ingest`, `/summary` or `/events` request, every retained
event satisfies the retention bound: its `speech_start_ms` — or, when that is
null/absent/zero, its `timestamp` (defaulting to 0) — is at least
`now_ms - WINDOW_SECONDS * 1000`; events outside the window are removed, and
an ingested event violating the bound is not retained. -/
theorem claim_c10_retention (w now : ℤ) (p : CollectorEvent)
    (evs : List CollectorEvent) :
    (∀ e ∈ ingest w now p evs, now - w * 1000 ≤ eventKey e) ∧
    (∀ e ∈ pruneOnRead w now evs, now - w * 1000 ≤ eventKey e) ∧
    (eventKey p < now - w * 1000 → p ∉ ingest w now p evs) := by
  refine ⟨fun e he => mem_prune he, fun e he => mem_prune he, fun hlt hmem => ?_⟩
  exact absurd (mem_prune hmem) (by omega)

/-- Witness for C10: with a 60 s window at `now_ms = 100000`, an event whose
key is 1 is outside the window and is not retained by `/ingest`. -/
theorem claim_c10_witness :
    eventKey ⟨some 1, none⟩ < 100000 - 60 * 1000 ∧
    ⟨some 1, none⟩ ∉ ingest 60 100000 ⟨some 1, none⟩ [] :=
  ⟨by decide, (claim_c10_retention 60 100000 ⟨some 1, none⟩ []).2.2 (by decide)⟩

/-! ## Barge-in (C1) -/

theorem unitAt_oob {st : SessionSt} {k : ℕ} (h : ¬k < st.nUnits) :
    st.unitAt k = default := by simp [SessionSt.unitAt, h]

theorem unitAt_lt_of_live {st : SessionSt} {k : ℕ}
    (h : (st.unitAt k).done = false) : k < st.nUnits := by
  by_contra hcontra
  rw [unitAt_oob hcontra] at h
  exact absurd h (by decide)

theorem unitAt_lt_of_cancelled {st : SessionSt} {k : ℕ}
    (h : (st.unitAt k).cancelFlag = true) : k < st.nUnits := by
  by_contra hcontra
  rw [unitAt_oob hcontra] at h
  exact absurd h (by decide)

theorem bargeCancel_cancels {cfg : Config} {st : SessionSt} {k : ℕ}
    (hb : cfg.bargeIn = true) (hcur : st.currentTts = some k)
    (hlive : (st.unitAt k).done = false) :
    bargeCancel cfg st = st.setUnit k (st.unitAt k).cancel := by
  unfold bargeCancel
  rw [hcur]
  simp [hb, hlive]

/-- C1: a speech-start event delivered to `AgentSession.handle_audio_frame`
while barge-in is enabled and a `TTSStream` task exists and is not done makes
the controller call `cancel()` on that stream, discard the current
`LatencyTurn` without emitting anything, and open a fresh `LatencyTurn` whose
`speech_start_ts` is the new speech-start timestamp. -/
theorem claim_c1_barge_in (cfg : Config) (classify : AudioFrame → Bool)
    (st : SessionSt) (frame : AudioFrame) (now : ℚ) (k : ℕ)
    (hb : cfg.bargeIn = true) (hcur : st.currentTts = some k)
    (hlive : (st.unitAt k).done = false)
    (hcl : classify frame = true) (hlen : webrtcValidLength frame.length = true)
    (hvad : st.vad.active = false) (hnz : now ≠ 0) :
    ∃ st1, handle_audio_frame cfg classify st frame now = .ok st1 ∧
      (st1.unitAt k).cancelFlag = true ∧
      st1.emissions = st.emissions ∧
      st1.activeTurn = some st.nTurns ∧
      st1.turns st.nTurns = { speech_start_ts := some now } ∧
      st1.nTurns = st.nTurns + 1 := by
  have hk : k < st.nUnits := unitAt_lt_of_live hlive
  have heq : handle_audio_frame cfg classify st frame now =
      .ok (speechStartStep cfg
        { st with vad := { active := true, speech_start_ts := some now } }
        now ["audio"]) := by
    unfold handle_audio_frame vadIsSpeech VADDetector.process frame_energy
    simp [hlen, hcl, hvad, pyTruthy, hnz]
  have hbc : bargeCancel cfg
      { st with vad := { active := true, speech_start_ts := some now } } =
      SessionSt.setUnit
        { st with vad := { active := true, speech_start_ts := some now } } k
        (SessionSt.unitAt
          { st with vad := { active := true, speech_start_ts := some now } }
          k).cancel :=
    bargeCancel_cancels hb hcur hlive
  refine ⟨_, heq, ?_, ?_, ?_, ?_, ?_⟩ <;>
    · unfold speechStartStep
      rw [hbc]
      simp [SessionSt.setUnit, SessionSt.unitAt, hk, TTSUnit.cancel,
        Function.update_same]

set_option maxRecDepth 100000 in
/-- Witness for C1: after one full turn the session has a live synthesis task
(unit 0); a fresh speech frame then cancels it and opens a new turn. -/
theorem claim_c1_witness :
    ∃ st1, handle_audio_frame cfgE (fun _ => true) (run cfgE initSt plainTrace)
        (List.replicate 640 0) 1 = .ok st1 ∧
      (st1.unitAt 0).cancelFlag = true ∧
      st1.emissions = (run cfgE initSt plainTrace).emissions ∧
      st1.activeTurn = some (run cfgE initSt plainTrace).nTurns ∧
      st1.turns (run cfgE initSt plainTrace).nTurns =
        { speech_start_ts := some 1 } ∧
      st1.nTurns = (run cfgE initSt plainTrace).nTurns + 1 :=
  claim_c1_barge_in cfgE (fun _ => true) (run cfgE initSt plainTrace)
    (List.replicate 640 0) 1 0 rfl (by decide) (by decide) rfl (by decide)
    (by decide) (by decide)

/-! ## Step-anatomy helper lemmas -/

theorem unitAt_setTurn (st : SessionSt) (j : ℕ) (x : LatencyTurn) (k : ℕ) :
    (st.setTurn j x).unitAt k = st.unitAt k := rfl

theorem unitAt_setTask (st : SessionSt) (i : ℕ) (x : STTTask) (k : ℕ) :
    (st.setTask i x).unitAt k = st.unitAt k := rfl

theorem unitAt_setUnit (st : SessionSt) (k k' : ℕ) (u : TTSUnit) :
    (st.setUnit k u).unitAt k' =
      if k' = k ∧ k' < st.nUnits then u else st.unitAt k' := by
  unfold SessionSt.setUnit SessionSt.unitAt
  by_cases h2 : k' = k
  · subst h2
    by_cases h1 : k' < st.nUnits <;> simp [h1, Function.update_same]
  · simp [h2, Function.update_noteq h2]

theorem bargeCancel_eq_or (cfg : Config) (st : SessionSt) :
    bargeCancel cfg st = st ∨
    ∃ k, (st.unitAt k).done = false ∧
      bargeCancel cfg st = st.setUnit k (st.unitAt k).cancel := by
  unfold bargeCancel
  split
  · split
    · rename_i hcond
      refine Or.inr ⟨_, ?_, rfl⟩
      have hd := ((Bool.and_eq_true _ _).mp hcond).2
      simpa using hd
    · exact Or.inl rfl
  · exact Or.inl rfl

theorem sttFinish_unitAt (cfg : Config) (st : SessionSt) (tk : STTTask)
    (ft : Option String) (now now2 : ℚ) (k : ℕ) (hk : k < st.nUnits) :
    (sttFinish cfg st tk ft now now2).unitAt k = st.unitAt k := by
  unfold sttFinish
  split
  · split
    · have hne : k ≠ st.nUnits := by omega
      split <;>
        simp [SessionSt.setTurn, SessionSt.unitAt, SessionSt.setUnit, hk,
          Nat.lt_succ_of_lt hk, Function.update_noteq hne]
    · rfl
  · rfl

theorem sttFinish_nUnits_mono (cfg : Config) (st : SessionSt) (tk : STTTask)
    (ft : Option String) (now now2 : ℚ) :
    st.nUnits ≤ (sttFinish cfg st tk ft now now2).nUnits := by
  unfold sttFinish
  split
  · split
    · split <;> simp [SessionSt.setTurn, SessionSt.setUnit]
    · exact le_refl _
  · exact le_refl _

theorem sttStep_unitAt (cfg : Config) (st : SessionSt) (i : ℕ)
    (now now2 : ℚ) (k : ℕ) (hk : k < st.nUnits) :
    (sttStep cfg st i now now2).unitAt k = st.unitAt k := by
  unfold sttStep
  dsimp only
  split
  · rfl
  · split
    · split
      · split <;> rfl
      · rfl
    · rfl
  · exact sttFinish_unitAt _ _ _ _ _ _ k hk
  · rfl

/-! ## Cooperative cancellation (C6) -/

theorem ttsStep_unitAt_ne (st : SessionSt) (k' : ℕ) (now : ℚ) (k : ℕ)
    (hne : k ≠ k') :
    (ttsStep st k' now).unitAt k = st.unitAt k := by
  unfold ttsStep
  dsimp only
  split
  · rfl
  · split
    · rw [unitAt_setUnit]; simp [hne]
    · split
      · rw [unitAt_setUnit]; simp [hne]
      · split
        · simp [SessionSt.unitAt, SessionSt.setUnit, SessionSt.setTurn,
            Function.update_noteq hne]
        · rw [unitAt_setUnit]; simp [hne]

theorem ttsStep_self_cancelled {st : SessionSt} {k : ℕ} {now : ℚ}
    (h : (st.unitAt k).cancelFlag = true) :
    ((ttsStep st k now).unitAt k).cancelFlag = true ∧
    ((ttsStep st k now).unitAt k).framesSent = (st.unitAt k).framesSent := by
  have hk := unitAt_lt_of_cancelled h
  unfold ttsStep
  dsimp only
  by_cases hdone : (st.unitAt k).done = true
  · rw [if_pos hdone]; exact ⟨h, rfl⟩
  · rw [if_neg hdone, if_pos h, unitAt_setUnit]
    simp [hk, h]

theorem step_cancel_stable (cfg : Config) (a : Act) (st : SessionSt) (k : ℕ)
    (h : (st.unitAt k).cancelFlag = true) :
    ((step cfg st a).unitAt k).cancelFlag = true ∧
    ((step cfg st a).unitAt k).framesSent = (st.unitAt k).framesSent := by
  have hk : k < st.nUnits := unitAt_lt_of_cancelled h
  cases a with
  | speech now =>
      have houter : (step cfg st (.speech now)).unitAt k =
          (bargeCancel cfg st).unitAt k := rfl
      rw [houter]
      rcases bargeCancel_eq_or cfg st with hbc | ⟨k', hd, hbc⟩ <;> rw [hbc]
      · exact ⟨h, rfl⟩
      · rw [unitAt_setUnit]
        by_cases hkk : k = k' ∧ k < st.nUnits
        · rcases hkk with ⟨rfl, hlt⟩
          simp [TTSUnit.cancel, hlt]
        · simp [hkk, h]
  | stt i now now2 =>
      have : (step cfg st (.stt i now now2)).unitAt k = st.unitAt k :=
        sttStep_unitAt cfg st i now now2 k hk
      rw [this]
      exact ⟨h, rfl⟩
  | tts k' now =>
      by_cases hne : k = k'
      · subst hne
        exact ttsStep_self_cancelled h
      · have : (step cfg st (.tts k' now)).unitAt k = st.unitAt k :=
          ttsStep_unitAt_ne st k' now k hne
        rw [this]
        exact ⟨h, rfl⟩

theorem run_cancel_stable (cfg : Config) (tr : List Act) :
    ∀ (st : SessionSt) (k : ℕ), (st.unitAt k).cancelFlag = true →
      ((run cfg st tr).unitAt k).cancelFlag = true ∧
      ((run cfg st tr).unitAt k).framesSent = (st.unitAt k).framesSent := by
  induction tr with
  | nil => exact fun st k h => ⟨h, rfl⟩
  | cons a r ih =>
      intro st k h
      have h1 := step_cancel_stable cfg a st k h
      have h2 := ih (step cfg st a) k h1.1
      exact ⟨h2.1, h2.2.trans h1.2⟩

/-- C6: once `cancel()` has been invoked on an active `TTSStream` (its
cooperative flag is set), the stream yields at most one additional frame over
any continuation of the session, however scheduled — the flag is checked once
per frame boundary, so a frame already yielded is never interrupted and no
further frame is produced; and `cancel()` is idempotent: invoking it any
number of additional times leaves the stream state unchanged. -/
theorem claim_c6_cancel (cfg : Config) (st : SessionSt) (q : List Act)
    (k : ℕ) (now : ℚ) (h : (st.unitAt k).cancelFlag = true) :
    ((run cfg st q).unitAt k).framesSent ≤ (st.unitAt k).framesSent + 1 ∧
    ((ttsStep st k now).unitAt k).framesSent = (st.unitAt k).framesSent ∧
    (∀ u : TTSUnit, u.cancel.cancel = u.cancel) := by
  refine ⟨?_, (ttsStep_self_cancelled h).2, fun u => rfl⟩
  rw [(run_cancel_stable cfg q st k h).2]
  omega

/-- Witness for C6: after `bargeTrace` unit 0 is cancelled; running two more
of its frame steps yields no additional frame. -/
theorem claim_c6_witness :
    (((run cfgE (run cfgE initSt bargeTrace) [.tts 0 7, .tts 0 8]).unitAt
        0).framesSent ≤ ((run cfgE initSt bargeTrace).unitAt 0).framesSent + 1) ∧
    ((ttsStep (run cfgE initSt bargeTrace) 0 7).unitAt 0).framesSent =
      ((run cfgE initSt bargeTrace).unitAt 0).framesSent ∧
    (∀ u : TTSUnit, u.cancel.cancel = u.cancel) :=
  claim_c6_cancel cfgE (run cfgE initSt bargeTrace) [.tts 0 7, .tts 0 8] 0 7
    (by decide)

/-! ## Emission bookkeeping (C2) -/

theorem bargeCancel_misc (cfg : Config) (st : SessionSt) :
    (bargeCancel cfg st).emissions = st.emissions ∧
    (bargeCancel cfg st).nUnits = st.nUnits ∧
    (bargeCancel cfg st).nTurns = st.nTurns ∧
    (bargeCancel cfg st).nTasks = st.nTasks ∧
    (bargeCancel cfg st).turns = st.turns ∧
    (bargeCancel cfg st).sttTasks = st.sttTasks ∧
    (bargeCancel cfg st).staleWrites = st.staleWrites := by
  rcases bargeCancel_eq_or cfg st with hbc | ⟨k', hd, hbc⟩ <;> rw [hbc] <;>
    exact ⟨rfl, rfl, rfl, rfl, rfl, rfl, rfl⟩

theorem speechStart_unit_fields (cfg : Config) (st : SessionSt) (ts : ℚ)
    (ac : List String) (k : ℕ) :
    ((speechStartStep cfg st ts ac).unitAt k).framesSent
      = (st.unitAt k).framesSent ∧
    ((speechStartStep cfg st ts ac).unitAt k).firstChunk
      = (st.unitAt k).firstChunk ∧
    ((speechStartStep cfg st ts ac).unitAt k).first_audio_ts
      = (st.unitAt k).first_audio_ts := by
  have houter : (speechStartStep cfg st ts ac).unitAt k
      = (bargeCancel cfg st).unitAt k := rfl
  rw [houter]
  rcases bargeCancel_eq_or cfg st with hbc | ⟨k', hd, hbc⟩ <;> rw [hbc]
  · exact ⟨rfl, rfl, rfl⟩
  · rw [unitAt_setUnit]
    by_cases hkk : k = k' ∧ k < st.nUnits
    · rcases hkk with ⟨rfl, hlt⟩
      simp [TTSUnit.cancel, hlt]
    · simp [hkk]

theorem speechStart_misc (cfg : Config) (st : SessionSt) (ts : ℚ)
    (ac : List String) :
    (speechStartStep cfg st ts ac).emissions = st.emissions ∧
    (speechStartStep cfg st ts ac).nUnits = st.nUnits ∧
    (speechStartStep cfg st ts ac).activeTurn = some st.nTurns ∧
    (speechStartStep cfg st ts ac).nTurns = st.nTurns + 1 ∧
    (speechStartStep cfg st ts ac).nTasks = st.nTasks + 1 ∧
    (speechStartStep cfg st ts ac).staleWrites = st.staleWrites := by
  obtain ⟨h1, h2, h3, h4, -, -, h7⟩ := bargeCancel_misc cfg st
  exact ⟨h1, h2, by rw [show (speechStartStep cfg st ts ac).activeTurn
      = some (bargeCancel cfg st).nTurns from rfl, h3],
    by rw [show (speechStartStep cfg st ts ac).nTurns
      = (bargeCancel cfg st).nTurns + 1 from rfl, h3],
    by rw [show (speechStartStep cfg st ts ac).nTasks
      = (bargeCancel cfg st).nTasks + 1 from rfl, h4], h7⟩

theorem sttFinish_misc (cfg : Config) (st : SessionSt) (tk : STTTask)
    (ft : Option String) (n1 n2 : ℚ) :
    (sttFinish cfg st tk ft n1 n2).emissions = st.emissions ∧
    (sttFinish cfg st tk ft n1 n2).activeTurn = st.activeTurn ∧
    (sttFinish cfg st tk ft n1 n2).nTurns = st.nTurns ∧
    (sttFinish cfg st tk ft n1 n2).nTasks = st.nTasks ∧
    (sttFinish cfg st tk ft n1 n2).sttTasks = st.sttTasks := by
  unfold sttFinish
  split
  · split
    · split <;> exact ⟨rfl, rfl, rfl, rfl, rfl⟩
    · exact ⟨rfl, rfl, rfl, rfl, rfl⟩
  · exact ⟨rfl, rfl, rfl, rfl, rfl⟩

theorem sttStep_misc (cfg : Config) (st : SessionSt) (i : ℕ) (n1 n2 : ℚ) :
    (sttStep cfg st i n1 n2).emissions = st.emissions ∧
    (sttStep cfg st i n1 n2).activeTurn = st.activeTurn ∧
    (sttStep cfg st i n1 n2).nTurns = st.nTurns ∧
    (sttStep cfg st i n1 n2).nTasks = st.nTasks := by
  unfold sttStep
  dsimp only
  split
  · exact ⟨rfl, rfl, rfl, rfl⟩
  · split
    · split
      · split <;> exact ⟨rfl, rfl, rfl, rfl⟩
      · exact ⟨rfl, rfl, rfl, rfl⟩
    · exact ⟨rfl, rfl, rfl, rfl⟩
  · obtain ⟨h1, h2, h3, h4, -⟩ := sttFinish_misc cfg (st.setTask i _) _
      (wait_final true (st.taskAt i).final_transcript) n1 n2
    exact ⟨h1, h2, h3, h4⟩
  · exact ⟨rfl, rfl, rfl, rfl⟩

theorem sttFinish_unit_cases (cfg : Config) (st : SessionSt) (tk : STTTask)
    (ft : Option String) (n1 n2 : ℚ) :
    ((sttFinish cfg st tk ft n1 n2).nUnits = st.nUnits ∧
     ∀ k, (sttFinish cfg st tk ft n1 n2).unitAt k = st.unitAt k) ∨
    ((sttFinish cfg st tk ft n1 n2).nUnits = st.nUnits + 1 ∧
     st.activeTurn.isSome = true ∧
     ∃ text, ∀ k, (sttFinish cfg st tk ft n1 n2).unitAt k =
       if k = st.nUnits then newTTSUnit text else st.unitAt k) := by
  unfold sttFinish
  split
  · rename_i j hj
    split
    · right
      split <;>
      · refine ⟨rfl, by rw [hj]; rfl,
          (build_reply cfg (ft.getD "") st.scriptIndex).1, fun k => ?_⟩
        by_cases hk : k = st.nUnits
        · subst hk
          simp [SessionSt.unitAt, SessionSt.setTurn, SessionSt.setUnit,
            Function.update_same]
        · by_cases hlt : k < st.nUnits
          · simp [SessionSt.unitAt, SessionSt.setTurn, SessionSt.setUnit,
              hlt, Nat.lt_succ_of_lt hlt, Function.update_noteq hk, hk]
          · have hge : ¬k < st.nUnits + 1 := by omega
            simp [SessionSt.unitAt, SessionSt.setTurn, SessionSt.setUnit,
              hlt, hge, hk]
    · exact Or.inl ⟨rfl, fun k => rfl⟩
  · exact Or.inl ⟨rfl, fun k => rfl⟩

theorem sttStep_unit_cases (cfg : Config) (st : SessionSt) (i : ℕ)
    (n1 n2 : ℚ) :
    ((sttStep cfg st i n1 n2).nUnits = st.nUnits ∧
     ∀ k, (sttStep cfg st i n1 n2).unitAt k = st.unitAt k) ∨
    ((sttStep cfg st i n1 n2).nUnits = st.nUnits + 1 ∧
     st.activeTurn.isSome = true ∧
     ∃ text, ∀ k, (sttStep cfg st i n1 n2).unitAt k =
       if k = st.nUnits then newTTSUnit text else st.unitAt k) := by
  unfold sttStep
  dsimp only
  split
  · exact Or.inl ⟨rfl, fun k => rfl⟩
  · split
    · split
      · split <;> exact Or.inl ⟨rfl, fun k => rfl⟩
      · exact Or.inl ⟨rfl, fun k => rfl⟩
    · exact Or.inl ⟨rfl, fun k => rfl⟩
  · exact sttFinish_unit_cases cfg (st.setTask i _) _
      (wait_final true (st.taskAt i).final_transcript) n1 n2
  · exact Or.inl ⟨rfl, fun k => rfl⟩

theorem countUnit_eq_of_emissions {st st' : SessionSt}
    (h : st'.emissions = st.emissions) (k : ℕ) :
    countUnit st' k = countUnit st k := by
  unfold countUnit
  rw [h]

theorem emitInv_init : EmitInv initSt := by
  refine ⟨fun k => ?_, fun k => ?_, fun k => ?_, fun h => ?_⟩
  · simp [countUnit, initSt, SessionSt.unitAt]
    decide
  · simp [initSt, SessionSt.unitAt]
    decide
  · simp [initSt, SessionSt.unitAt]
    decide
  · simp [initSt] at h

theorem emitInv_speech (cfg : Config) (st : SessionSt) (ts : ℚ)
    (ac : List String) (h : EmitInv st) :
    EmitInv (speechStartStep cfg st ts ac) := by
  obtain ⟨he, hn, hat, -, -, -⟩ := speechStart_misc cfg st ts ac
  refine ⟨fun k => ?_, fun k => ?_, fun k => ?_, fun _ => ?_⟩
  · rw [countUnit_eq_of_emissions he,
      (speechStart_unit_fields cfg st ts ac k).1]
    exact h.cnt k
  · rw [(speechStart_unit_fields cfg st ts ac k).2.1,
      (speechStart_unit_fields cfg st ts ac k).1]
    exact h.fchunk k
  · rw [(speechStart_unit_fields cfg st ts ac k).2.2,
      (speechStart_unit_fields cfg st ts ac k).1]
    exact h.faud k
  · rw [hat]
    rfl

theorem emitInv_stt (cfg : Config) (st : SessionSt) (i : ℕ) (n1 n2 : ℚ)
    (h : EmitInv st) : EmitInv (sttStep cfg st i n1 n2) := by
  obtain ⟨he, hat, -, -⟩ := sttStep_misc cfg st i n1 n2
  rcases sttStep_unit_cases cfg st i n1 n2 with ⟨hn, hu⟩ | ⟨hn, hsome, text, hu⟩
  · refine ⟨fun k => ?_, fun k => ?_, fun k => ?_, fun hpos => ?_⟩
    · rw [countUnit_eq_of_emissions he, hu k]
      exact h.cnt k
    · rw [hu k]
      exact h.fchunk k
    · rw [hu k]
      exact h.faud k
    · rw [hat]
      exact h.uact (by omega)
  · refine ⟨fun k => ?_, fun k => ?_, fun k => ?_, fun _ => ?_⟩
    · rw [countUnit_eq_of_emissions he, hu k]
      by_cases hk : k = st.nUnits
      · have hc := h.cnt k
        rw [unitAt_oob (by omega)] at hc
        simpa [hk, newTTSUnit] using hc
      · simp only [hk, if_false]
        exact h.cnt k
    · rw [hu k]
      by_cases hk : k = st.nUnits
      · simp [hk, newTTSUnit]
      · simp only [hk, if_false]
        exact h.fchunk k
    · rw [hu k]
      by_cases hk : k = st.nUnits
      · simp [hk, newTTSUnit]
      · simp only [hk, if_false]
        exact h.faud k
    · rw [hat]
      exact hsome

theorem emitInv_setDone (st : SessionSt) (k' : ℕ) (h : EmitInv st) :
    EmitInv (st.setUnit k' { st.unitAt k' with done := true }) := by
  refine ⟨fun k => ?_, fun k => ?_, fun k => ?_, fun hpos => ?_⟩
  · rw [unitAt_setUnit]
    by_cases hkk : k = k' ∧ k < st.nUnits
    · rcases hkk with ⟨rfl, hlt⟩
      simpa [hlt] using h.cnt k
    · simp only [hkk, if_false]
      exact h.cnt k
  · rw [unitAt_setUnit]
    by_cases hkk : k = k' ∧ k < st.nUnits
    · rcases hkk with ⟨rfl, hlt⟩
      simpa [hlt] using h.fchunk k
    · simp only [hkk, if_false]
      exact h.fchunk k
  · rw [unitAt_setUnit]
    by_cases hkk : k = k' ∧ k < st.nUnits
    · rcases hkk with ⟨rfl, hlt⟩
      simpa [hlt] using h.faud k
    · simp only [hkk, if_false]
      exact h.faud k
  · exact h.uact hpos

theorem ttsStep_eq_of_done {st : SessionSt} {k' : ℕ} {now : ℚ}
    (hdone : (st.unitAt k').done = true) : ttsStep st k' now = st := by
  unfold ttsStep
  dsimp only
  rw [if_pos hdone]

theorem ttsStep_eq_of_cancel {st : SessionSt} {k' : ℕ} {now : ℚ}
    (hdone : ¬(st.unitAt k').done = true)
    (hcan : (st.unitAt k').cancelFlag = true) :
    ttsStep st k' now = st.setUnit k' { st.unitAt k' with done := true } := by
  unfold ttsStep
  dsimp only
  rw [if_neg hdone, if_pos hcan]

theorem ttsStep_eq_of_exhausted {st : SessionSt} {k' : ℕ} {now : ℚ}
    (hdone : ¬(st.unitAt k').done = true)
    (hcan : ¬(st.unitAt k').cancelFlag = true)
    (hfl : (st.unitAt k').framesLeft = 0) :
    ttsStep st k' now = st.setUnit k' { st.unitAt k' with done := true } := by
  unfold ttsStep
  dsimp only
  rw [if_neg hdone, if_neg hcan, if_pos hfl]

theorem ttsStep_eq_emit {st : SessionSt} {k' : ℕ} {now : ℚ} {j : ℕ}
    (hdone : ¬(st.unitAt k').done = true)
    (hcan : ¬(st.unitAt k').cancelFlag = true)
    (hfl : ¬(st.unitAt k').framesLeft = 0)
    (hj : st.activeTurn = some j)
    (hfc : (st.unitAt k').firstChunk = true)
    (hfa : (st.unitAt k').first_audio_ts = none) :
    ttsStep st k' now =
      { (st.setTurn j { st.turns j with
            tts_first_byte_ts := some now
            playback_start_ts := some now }).setUnit k'
          { st.unitAt k' with
            framesLeft := (st.unitAt k').framesLeft - 1
            first_audio_ts := some now
            framesSent := (st.unitAt k').framesSent + 1
            firstChunk := false } with
        emissions := st.emissions ++
          [⟨j, k', { st.turns j with
              tts_first_byte_ts := some now
              playback_start_ts := some now }⟩] } := by
  unfold ttsStep
  dsimp only
  rw [if_neg hdone, if_neg hcan, if_neg hfl, hj, hfc, hfa]
  rfl

theorem ttsStep_eq_yield {st : SessionSt} {k' : ℕ} {now : ℚ} {j : ℕ}
    (hdone : ¬(st.unitAt k').done = true)
    (hcan : ¬(st.unitAt k').cancelFlag = true)
    (hfl : ¬(st.unitAt k').framesLeft = 0)
    (hj : st.activeTurn = some j)
    (hfc : (st.unitAt k').firstChunk = false) :
    ttsStep st k' now =
      st.setUnit k'
        { st.unitAt k' with
          framesLeft := (st.unitAt k').framesLeft - 1
          first_audio_ts :=
            match (st.unitAt k').first_audio_ts with
            | none => some now
            | some x => some x
          framesSent := (st.unitAt k').framesSent + 1 } := by
  unfold ttsStep
  dsimp only
  rw [if_neg hdone, if_neg hcan, if_neg hfl, hj, hfc]


theorem emitInv_emit_state (st : SessionSt) (j k' : ℕ) (now : ℚ)
    (h : EmitInv st) (hk' : k' < st.nUnits)
    (hsent0 : (st.unitAt k').framesSent = 0)
    (hj : st.activeTurn = some j) (tn : LatencyTurn) :
    EmitInv { (st.setTurn j tn).setUnit k'
        { st.unitAt k' with
          framesLeft := (st.unitAt k').framesLeft - 1
          first_audio_ts := some now
          framesSent := (st.unitAt k').framesSent + 1
          firstChunk := false } with
      emissions := st.emissions ++ [⟨j, k', tn⟩] } := by
  have hcnt : ∀ k, countUnit { (st.setTurn j tn).setUnit k'
      { st.unitAt k' with
        framesLeft := (st.unitAt k').framesLeft - 1
        first_audio_ts := some now
        framesSent := (st.unitAt k').framesSent + 1
        firstChunk := false } with
      emissions := st.emissions ++ [⟨j, k', tn⟩] } k
      = countUnit st k + (if (k' == k) = true then 1 else 0) := by
    intro k
    show (st.emissions ++ [(⟨j, k', tn⟩ : Emission)]).countP
      (fun (e : Emission) => e.unitIdx == k) = _
    rw [List.countP_append]
    simp [countUnit, List.countP_cons]
  have hunit : ∀ k, SessionSt.unitAt { (st.setTurn j tn).setUnit k'
      { st.unitAt k' with
        framesLeft := (st.unitAt k').framesLeft - 1
        first_audio_ts := some now
        framesSent := (st.unitAt k').framesSent + 1
        firstChunk := false } with
      emissions := st.emissions ++ [⟨j, k', tn⟩] } k
      = if k = k' ∧ k < st.nUnits then
          { st.unitAt k' with
            framesLeft := (st.unitAt k').framesLeft - 1
            first_audio_ts := some now
            framesSent := (st.unitAt k').framesSent + 1
            firstChunk := false }
        else st.unitAt k := by
    intro k
    show ((st.setTurn j tn).setUnit k' _).unitAt k = _
    rw [unitAt_setUnit]
    rfl
  refine ⟨fun k => ?_, fun k => ?_, fun k => ?_, fun _ => ?_⟩
  · rw [hcnt k, hunit k]
    by_cases hk : k = k'
    · subst hk
      have h0 : countUnit st k = 0 := by
        rw [h.cnt k, hsent0]
        decide
      simp [hk', h0, hsent0]
    · have : ¬(k' == k) = true := by simp [Ne.symm hk]
      simp only [this, if_false, hk, false_and, Nat.add_zero]
      exact h.cnt k
  · rw [hunit k]
    by_cases hkk : k = k' ∧ k < st.nUnits
    · rcases hkk with ⟨rfl, -⟩
      simp [hk']
    · simp only [hkk, if_false]
      exact h.fchunk k
  · rw [hunit k]
    by_cases hkk : k = k' ∧ k < st.nUnits
    · rcases hkk with ⟨rfl, -⟩
      simp [hk']
    · simp only [hkk, if_false]
      exact h.faud k
  · show st.activeTurn.isSome = true
    rw [hj]
    rfl

theorem emitInv_yield_state (st : SessionSt) (k' : ℕ) (u1 : TTSUnit)
    (h : EmitInv st) (hk' : k' < st.nUnits)
    (hsentne : (st.unitAt k').framesSent ≠ 0)
    (hSent : u1.framesSent = (st.unitAt k').framesSent + 1)
    (hFc : u1.firstChunk = (st.unitAt k').firstChunk)
    (hFa : u1.first_audio_ts.isSome = true)
    (hact : st.activeTurn.isSome = true) :
    EmitInv (st.setUnit k' u1) := by
  refine ⟨fun k => ?_, fun k => ?_, fun k => ?_, fun _ => hact⟩
  · have hcEq : countUnit (st.setUnit k' u1) k = countUnit st k := rfl
    rw [hcEq, unitAt_setUnit]
    by_cases hkk : k = k' ∧ k < st.nUnits
    · rcases hkk with ⟨rfl, -⟩
      rw [if_pos (⟨rfl, hk'⟩ : k = k ∧ k < st.nUnits), h.cnt k, hSent,
        Nat.min_eq_left (by omega), Nat.min_eq_left (by omega)]
    · rw [if_neg hkk]
      exact h.cnt k
  · rw [unitAt_setUnit]
    by_cases hkk : k = k' ∧ k < st.nUnits
    · rcases hkk with ⟨rfl, -⟩
      rw [if_pos (⟨rfl, hk'⟩ : k = k ∧ k < st.nUnits), hFc, hSent,
        h.fchunk k]
      simp [hsentne]
    · rw [if_neg hkk]
      exact h.fchunk k
  · rw [unitAt_setUnit]
    by_cases hkk : k = k' ∧ k < st.nUnits
    · rcases hkk with ⟨rfl, -⟩
      rw [if_pos (⟨rfl, hk'⟩ : k = k ∧ k < st.nUnits), hFa, hSent]
      simp
    · rw [if_neg hkk]
      exact h.faud k

theorem emitInv_tts (st : SessionSt) (k' : ℕ) (now : ℚ) (h : EmitInv st) :
    EmitInv (ttsStep st k' now) := by
  by_cases hdone : (st.unitAt k').done = true
  · rw [ttsStep_eq_of_done hdone]
    exact h
  · have hk' : k' < st.nUnits := by
      by_contra hb
      rw [unitAt_oob hb] at hdone
      exact hdone rfl
    by_cases hcan : (st.unitAt k').cancelFlag = true
    · rw [ttsStep_eq_of_cancel hdone hcan]
      exact emitInv_setDone st k' h
    · by_cases hfl : (st.unitAt k').framesLeft = 0
      · rw [ttsStep_eq_of_exhausted hdone hcan hfl]
        exact emitInv_setDone st k' h
      · obtain ⟨j, hj⟩ := Option.isSome_iff_exists.mp (h.uact (by omega))
        by_cases hfc : (st.unitAt k').firstChunk = true
        · -- first frame of this unit: the metrics emission happens here
          have hsent0 : (st.unitAt k').framesSent = 0 := by
            have hx := h.fchunk k'
            rw [hfc] at hx
            simpa using hx.symm
          have hfa : (st.unitAt k').first_audio_ts = none := by
            have hx := h.faud k'
            rw [hsent0] at hx
            cases hv : (st.unitAt k').first_audio_ts
            · rfl
            · rw [hv] at hx
              simp at hx
          rw [ttsStep_eq_emit hdone hcan hfl hj hfc hfa]
          exact emitInv_emit_state st j k' now h hk' hsent0 hj _
        · have hfc' : (st.unitAt k').firstChunk = false := by
            cases hx : (st.unitAt k').firstChunk
            · rfl
            · exact absurd hx hfc
          have hsentne : (st.unitAt k').framesSent ≠ 0 := by
            intro h0
            have hx := h.fchunk k'
            rw [hfc', h0] at hx
            simp at hx
          rw [ttsStep_eq_yield hdone hcan hfl hj hfc']
          obtain ⟨x, hx⟩ := Option.isSome_iff_exists.mp
            (by rw [h.faud k']; simp [hsentne])
          refine emitInv_yield_state st k' _ h hk' hsentne rfl rfl ?_
            (by rw [hj]; rfl)
          show (match (st.unitAt k').first_audio_ts with
            | none => some now
            | some x => some x).isSome = true
          rw [hx]
          rfl

theorem emitInv_step (cfg : Config) (st : SessionSt) (a : Act)
    (h : EmitInv st) : EmitInv (step cfg st a) := by
  cases a with
  | speech now => exact emitInv_speech cfg st now _ h
  | stt i n1 n2 => exact emitInv_stt cfg st i n1 n2 h
  | tts k now => exact emitInv_tts st k now h

theorem emitInv_run (cfg : Config) (tr : List Act) :
    ∀ st, EmitInv st → EmitInv (run cfg st tr) := by
  induction tr with
  | nil => exact fun _ h => h
  | cons a r ih => exact fun st h => ih _ (emitInv_step cfg st a h)

/-- C2 counterexample: the claim demands exactly one metrics emission per
completed turn.  In `staleTrace`, turn 1 completes (it is never barged in and
its transcription finalizes), yet two metrics events are emitted for it: the
transcription task of superseded turn 0 is never cancelled (spec §9's open
gap), its completion runs against turn 1 and starts a first synthesis stream,
and turn 1's own task then starts a second one — each stream emits at its
first frame. -/
theorem claim_c2_counterexample :
    validFrom 0 staleTrace = true ∧
    countTurn (run cfgE initSt staleTrace) 1 = 2 := by
  constructor <;> decide

/-- C2 amended: the exactly-once guarantee holds per synthesis stream, not per
turn: over every trace, each `TTSStream`/`run()` task emits at most one
metrics event, and it emits exactly one iff it has yielded its first frame
(the emission is triggered by the first synthesized frame only).  A completed
turn emits zero events when its reply synthesizes zero frames (empty text),
and can emit twice when a superseded turn's transcription task starts a
second stream for it. -/
theorem claim_c2_amended (cfg : Config) (tr : List Act) (k : ℕ) :
    countUnit (run cfg initSt tr) k ≤ 1 ∧
    countUnit (run cfg initSt tr) k =
      min 1 ((run cfg initSt tr).unitAt k).framesSent := by
  have h := emitInv_run cfg tr initSt emitInv_init
  exact ⟨by rw [h.cnt k]; exact Nat.min_le_left _ _, h.cnt k⟩

/-! ## Malformed audio frames (C9) -/

set_option maxRecDepth 100000 in
/-- C9 counterexample: the claim says a frame whose byte length is not the
fixed frame size is dropped by the session with no exception raised to the
caller.  The repository code performs no frame-size validation at all:
`handle_audio_frame` passes every frame straight to `webrtcvad.Vad.is_speech`,
which rejects invalid frame lengths, and the error propagates to the caller —
here a 639-byte frame makes `handle_audio_frame` raise instead of dropping
the frame. -/
theorem claim_c9_counterexample :
    handle_audio_frame cfgE (fun _ => true) initSt (List.replicate 639 0) 1 =
      .error "webrtcvad: invalid frame length" := rfl

/-- C9 amended: malformed frames are not dropped — the session performs no
size validation.  A frame whose length the VAD backend rejects (not a valid
10/20/30 ms frame) makes `handle_audio_frame` propagate the classifier's
error to its caller; since the error is raised before any mutation, the
session state (VAD edge memory, turn, synthesis tasks) is unchanged and
subsequent well-formed frames are processed normally.  A frame of a
valid-but-wrong length (e.g. 320 bytes) is processed like any other frame. -/
theorem claim_c9_amended (cfg : Config) (classify : AudioFrame → Bool)
    (st : SessionSt) (frame : AudioFrame) (now : ℚ)
    (h : webrtcValidLength frame.length = false) :
    handle_audio_frame cfg classify st frame now =
      .error "webrtcvad: invalid frame length" := by
  unfold handle_audio_frame vadIsSpeech
  simp [h]

set_option maxRecDepth 100000 in
/-- Witness for C9 amended: a 639-byte frame is rejected. -/
theorem claim_c9_witness :
    handle_audio_frame cfgE (fun _ => true) initSt (List.replicate 639 0) 2 =
      .error "webrtcvad: invalid frame length" :=
  claim_c9_amended cfgE (fun _ => true) initSt (List.replicate 639 0) 2
    (by decide)

/-! ## Milestone monotonicity machinery (C4) -/

theorem optValLe_none (t : ℚ) : optValLe none t := by
  intro x hx
  cases hx

theorem optValLe_some {x t : ℚ} (h : x ≤ t) : optValLe (some x) t := by
  intro y hy
  cases hy
  exact h

theorem optValLe_mono {o : Option ℚ} {t t' : ℚ} (h : optValLe o t)
    (htt : t ≤ t') : optValLe o t' :=
  fun x hx => le_trans (h x hx) htt

theorem optLe_none_right (o : Option ℚ) : optLe o none := by
  cases o <;> trivial

theorem optLe_none_left (o : Option ℚ) : optLe none o := trivial

theorem optLe_some_right {o : Option ℚ} {t now : ℚ} (h : optValLe o t)
    (htn : t ≤ now) : optLe o (some now) := by
  cases o with
  | none => trivial
  | some x => exact le_trans (h x rfl) htn

theorem optLe_refl_some (x : ℚ) : optLe (some x) (some x) := le_refl x

theorem optLe_trans_iff {a b c : Option ℚ} (hab : optLe a b) (hbc : optLe b c)
    (hiff : b.isSome ↔ c.isSome) : optLe a c := by
  cases a with
  | none => trivial
  | some x =>
      cases c with
      | none => trivial
      | some z =>
          cases b with
          | none => simp at hiff
          | some y => exact le_trans hab hbc

theorem turnLe_mono {tn : LatencyTurn} {t t' : ℚ} (h : TurnLe tn t)
    (htt : t ≤ t') : TurnLe tn t' :=
  ⟨optValLe_mono h.1 htt, optValLe_mono h.2.1 htt, optValLe_mono h.2.2.1 htt,
   optValLe_mono h.2.2.2.1 htt, optValLe_mono h.2.2.2.2.1 htt,
   optValLe_mono h.2.2.2.2.2 htt⟩

theorem mono5_intro {tn : LatencyTurn}
    (h12 : optLe tn.speech_start_ts tn.stt_final_ts)
    (h13 : optLe tn.speech_start_ts tn.agent_decision_ts)
    (h14 : optLe tn.speech_start_ts tn.tts_first_byte_ts)
    (h15 : optLe tn.speech_start_ts tn.playback_start_ts)
    (h23 : optLe tn.stt_final_ts tn.agent_decision_ts)
    (h24 : optLe tn.stt_final_ts tn.tts_first_byte_ts)
    (h25 : optLe tn.stt_final_ts tn.playback_start_ts)
    (h34 : optLe tn.agent_decision_ts tn.tts_first_byte_ts)
    (h35 : optLe tn.agent_decision_ts tn.playback_start_ts)
    (h45 : optLe tn.tts_first_byte_ts tn.playback_start_ts) : Mono5 tn := by
  refine .cons (fun b hb => ?_) (.cons (fun b hb => ?_) (.cons (fun b hb => ?_)
    (.cons (fun b hb => ?_) (.cons (fun b hb => ?_) .nil)))) <;>
    (simp only [List.mem_cons, List.not_mem_nil, or_false] at hb) <;>
    (rcases hb with rfl | rfl | rfl | rfl | rfl <;> assumption)

theorem mono6_intro {tn : LatencyTurn}
    (h12 : optLe tn.speech_start_ts tn.stt_first_partial_ts)
    (h13 : optLe tn.speech_start_ts tn.stt_final_ts)
    (h14 : optLe tn.speech_start_ts tn.agent_decision_ts)
    (h15 : optLe tn.speech_start_ts tn.tts_first_byte_ts)
    (h16 : optLe tn.speech_start_ts tn.playback_start_ts)
    (h23 : optLe tn.stt_first_partial_ts tn.stt_final_ts)
    (h24 : optLe tn.stt_first_partial_ts tn.agent_decision_ts)
    (h25 : optLe tn.stt_first_partial_ts tn.tts_first_byte_ts)
    (h26 : optLe tn.stt_first_partial_ts tn.playback_start_ts)
    (h34 : optLe tn.stt_final_ts tn.agent_decision_ts)
    (h35 : optLe tn.stt_final_ts tn.tts_first_byte_ts)
    (h36 : optLe tn.stt_final_ts tn.playback_start_ts)
    (h45 : optLe tn.agent_decision_ts tn.tts_first_byte_ts)
    (h46 : optLe tn.agent_decision_ts tn.playback_start_ts)
    (h56 : optLe tn.tts_first_byte_ts tn.playback_start_ts) : Mono6 tn := by
  refine .cons (fun b hb => ?_) (.cons (fun b hb => ?_) (.cons (fun b hb => ?_)
    (.cons (fun b hb => ?_) (.cons (fun b hb => ?_) (.cons (fun b hb => ?_)
      .nil))))) <;>
    (simp only [List.mem_cons, List.not_mem_nil, or_false] at hb) <;>
    (rcases hb with rfl | rfl | rfl | rfl | rfl | rfl <;> assumption)

theorem sessInv_mono {st : SessionSt} {t t' : ℚ} (h : SessInv st t)
    (htt : t ≤ t') : SessInv st t' where
  counts := h.counts
  activeOk := h.activeOk
  taskIdx := h.taskIdx
  turnStamp := fun j hj => turnLe_mono (h.turnStamp j hj) htt
  taskStamp := fun i hi => optValLe_mono (h.taskStamp i hi) htt
  unitStamp := fun k hk => optValLe_mono (h.unitStamp k hk) htt
  turnsWF := h.turnsWF
  taskPartGe := h.taskPartGe
  finalPhase := h.finalPhase
  turnPart := h.turnPart
  emisWF := h.emisWF

theorem sessInv_init : SessInv initSt 0 where
  counts := rfl
  activeOk := rfl
  taskIdx := fun i hi => by simp [initSt] at hi
  turnStamp := fun j hj => by simp [initSt] at hj
  taskStamp := fun i hi => by simp [initSt] at hi
  unitStamp := fun k hk => by simp [initSt] at hk
  turnsWF := fun j hj => by simp [initSt] at hj
  taskPartGe := fun _ i hi => by simp [initSt] at hi
  finalPhase := fun _ j hj => by simp [initSt] at hj
  turnPart := fun _ j hj => by simp [initSt] at hj
  emisWF := fun e he => by simp [initSt] at he

/-! ## Branch equations for the transcription steps -/

theorem speechStart_turns (cfg : Config) (st : SessionSt) (ts : ℚ)
    (ac : List String) :
    (speechStartStep cfg st ts ac).turns =
      Function.update st.turns st.nTurns { speech_start_ts := some ts } := by
  have h : (speechStartStep cfg st ts ac).turns =
      Function.update (bargeCancel cfg st).turns (bargeCancel cfg st).nTurns
        { speech_start_ts := some ts } := rfl
  rw [h, (bargeCancel_misc cfg st).2.2.1, (bargeCancel_misc cfg st).2.2.2.2.1]

theorem speechStart_tasks (cfg : Config) (st : SessionSt) (ts : ℚ)
    (ac : List String) :
    (speechStartStep cfg st ts ac).sttTasks =
      Function.update st.sttTasks st.nTasks
        { turnIdx := st.nTurns, phase := 0, first_partial_ts := none,
          final_transcript := none, accum := ac } := by
  have h : (speechStartStep cfg st ts ac).sttTasks =
      Function.update (bargeCancel cfg st).sttTasks (bargeCancel cfg st).nTasks
        { turnIdx := (bargeCancel cfg st).nTurns, phase := 0,
          first_partial_ts := none, final_transcript := none,
          accum := ac } := rfl
  rw [h, (bargeCancel_misc cfg st).2.2.2.2.2.1,
    (bargeCancel_misc cfg st).2.2.2.1, (bargeCancel_misc cfg st).2.2.1]

theorem speechStart_unit_fa (cfg : Config) (st : SessionSt) (ts : ℚ)
    (ac : List String) (k : ℕ) :
    ((speechStartStep cfg st ts ac).ttsUnits k).first_audio_ts =
      (st.ttsUnits k).first_audio_ts := by
  have h : (speechStartStep cfg st ts ac).ttsUnits =
      (bargeCancel cfg st).ttsUnits := rfl
  rw [h]
  rcases bargeCancel_eq_or cfg st with hbc | ⟨k', hd, hbc⟩
  · rw [hbc]
  · have hlt : k' < st.nUnits := unitAt_lt_of_live hd
    rw [hbc]
    show (Function.update st.ttsUnits k' (st.unitAt k').cancel k).first_audio_ts = _
    rw [Function.update_apply]
    by_cases hk : k = k'
    · subst hk
      simp [TTSUnit.cancel, SessionSt.unitAt, hlt]
    · simp [hk]

theorem sttStep_eq_done {cfg : Config} {st : SessionSt} {i : ℕ} {n1 n2 : ℚ}
    {m : ℕ} (hph : (st.taskAt i).phase = m + 3) :
    sttStep cfg st i n1 n2 = st := by
  unfold sttStep
  dsimp only
  rw [hph]
  rfl

theorem sttStep_eq_phase0 {cfg : Config} {st : SessionSt} {i : ℕ} {n1 n2 : ℚ}
    (hph : (st.taskAt i).phase = 0) :
    sttStep cfg st i n1 n2 = st.setTask i
      { st.taskAt i with
        phase := 1
        first_partial_ts :=
          if pyTruthy (st.taskAt i).first_partial_ts then
            (st.taskAt i).first_partial_ts
          else some n1 } := by
  unfold sttStep
  dsimp only
  rw [hph]

theorem sttStep_eq_phase2 {cfg : Config} {st : SessionSt} {i : ℕ} {n1 n2 : ℚ}
    (hph : (st.taskAt i).phase = 2) :
    sttStep cfg st i n1 n2 =
      sttFinish cfg (st.setTask i { st.taskAt i with phase := 3 })
        { st.taskAt i with phase := 3 }
        (wait_final true (st.taskAt i).final_transcript) n1 n2 := by
  unfold sttStep
  dsimp only
  rw [hph]

theorem sttStep_eq_phase1 {cfg : Config} {st : SessionSt} {i : ℕ} {n1 n2 : ℚ}
    (hph : (st.taskAt i).phase = 1) :
    sttStep cfg st i n1 n2 =
      (let tk1 := { st.taskAt i with
        phase := 2
        final_transcript := some (joinStrip (st.taskAt i).accum) }
      let st1 := st.setTask i tk1
      match st1.activeTurn with
      | some j =>
          if pyTruthy (st.taskAt i).first_partial_ts &&
             !pyTruthy (st1.turns j).stt_first_partial_ts then
            let st2 := st1.setTurn j
              { st1.turns j with
                stt_first_partial_ts := (st.taskAt i).first_partial_ts }
            if (st.taskAt i).turnIdx = j then st2
            else { st2 with staleWrites := st2.staleWrites + 1 }
          else st1
      | none => st1) := by
  unfold sttStep
  dsimp only
  rw [hph]

/-! ## SessInv preservation -/

theorem taskAt_lt_of_phase {st : SessionSt} {i : ℕ}
    (h : (st.taskAt i).phase ≠ 3) : i < st.nTasks := by
  by_contra hb
  simp [SessionSt.taskAt, hb] at h
  exact h rfl

theorem taskAt_eq {st : SessionSt} {i : ℕ} (hi : i < st.nTasks) :
    st.taskAt i = st.sttTasks i := by
  simp [SessionSt.taskAt, hi]

theorem sessInv_setTask (st : SessionSt) (t t' : ℚ) (i : ℕ) (tk' : STTTask)
    (hInv : SessInv st t) (htt : t ≤ t') (hi : i < st.nTasks)
    (hidx : tk'.turnIdx = i)
    (hph : (st.sttTasks i).phase ≠ 3)
    (hstamp : optValLe tk'.first_partial_ts t')
    (hge : st.staleWrites = 0 → ∀ p ∈ tk'.first_partial_ts,
      ∀ s ∈ (st.turns i).speech_start_ts, s ≤ p) :
    SessInv (st.setTask i tk') t' where
  counts := hInv.counts
  activeOk := hInv.activeOk
  taskIdx := fun i' hi' => by
    show (Function.update st.sttTasks i tk' i').turnIdx = i'
    by_cases h : i' = i
    · subst h
      rw [Function.update_same, hidx]
    · rw [Function.update_noteq h]
      exact hInv.taskIdx i' hi'
  turnStamp := fun j hj => turnLe_mono (hInv.turnStamp j hj) htt
  taskStamp := fun i' hi' => by
    show optValLe (Function.update st.sttTasks i tk' i').first_partial_ts t'
    by_cases h : i' = i
    · rw [h, Function.update_same]
      exact hstamp
    · rw [Function.update_noteq h]
      exact optValLe_mono (hInv.taskStamp i' hi') htt
  unitStamp := fun k hk => optValLe_mono (hInv.unitStamp k hk) htt
  turnsWF := hInv.turnsWF
  taskPartGe := fun hsw i' hi' => by
    show ∀ p ∈ (Function.update st.sttTasks i tk' i').first_partial_ts,
      ∀ s ∈ (SessionSt.turns _
        ((Function.update st.sttTasks i tk' i').turnIdx)).speech_start_ts,
      s ≤ p
    by_cases h : i' = i
    · subst h
      rw [Function.update_same, hidx]
      exact hge hsw
    · rw [Function.update_noteq h]
      exact hInv.taskPartGe hsw i' hi'
  finalPhase := fun hsw j hj hfin => by
    show (Function.update st.sttTasks i tk' j).phase = 3
    by_cases h : j = i
    · subst h
      exact absurd (hInv.finalPhase hsw j hj hfin) hph
    · rw [Function.update_noteq h]
      exact hInv.finalPhase hsw j hj hfin
  turnPart := hInv.turnPart
  emisWF := hInv.emisWF

theorem sessInv_speech (cfg : Config) (st : SessionSt) (ts : ℚ)
    (ac : List String) (t : ℚ) (hInv : SessInv st t) (htt : t ≤ ts) :
    SessInv (speechStartStep cfg st ts ac) ts := by
  obtain ⟨hem, hnu, hat, hnt, hnk, hsw⟩ := speechStart_misc cfg st ts ac
  have hturns := speechStart_turns cfg st ts ac
  have htasks := speechStart_tasks cfg st ts ac
  have hcnt := hInv.counts
  refine ⟨?_, ?_, ?_, ?_, ?_, ?_, ?_, ?_, ?_, ?_, ?_⟩
  · rw [hnk, hnt, hcnt]
  · rw [hat, hnt]
    simp
  · intro i hi
    rw [hnk] at hi
    rw [htasks]
    by_cases h : i = st.nTasks
    · subst h
      rw [Function.update_same]
      exact hcnt.symm
    · rw [Function.update_noteq h]
      exact hInv.taskIdx i (by omega)
  · intro j hj
    rw [hnt] at hj
    rw [hturns]
    by_cases h : j = st.nTurns
    · subst h
      rw [Function.update_same]
      exact ⟨optValLe_some le_rfl, optValLe_none ts, optValLe_none ts,
        optValLe_none ts, optValLe_none ts, optValLe_none ts⟩
    · rw [Function.update_noteq h]
      exact turnLe_mono (hInv.turnStamp j (by omega)) htt
  · intro i hi
    rw [hnk] at hi
    rw [htasks]
    by_cases h : i = st.nTasks
    · subst h
      rw [Function.update_same]
      exact optValLe_none ts
    · rw [Function.update_noteq h]
      exact optValLe_mono (hInv.taskStamp i (by omega)) htt
  · intro k hk
    rw [hnu] at hk
    rw [speechStart_unit_fa]
    exact optValLe_mono (hInv.unitStamp k hk) htt
  · intro j hj
    rw [hnt] at hj
    rw [hturns]
    by_cases h : j = st.nTurns
    · subst h
      rw [Function.update_same]
      exact ⟨rfl, Iff.rfl, trivial, trivial⟩
    · rw [Function.update_noteq h]
      exact hInv.turnsWF j (by omega)
  · intro hsw0 i hi
    rw [hsw] at hsw0
    rw [hnk] at hi
    rw [htasks, hturns]
    by_cases h : i = st.nTasks
    · subst h
      rw [Function.update_same]
      intro p hp
      cases hp
    · rw [Function.update_noteq h]
      have hi' : i < st.nTasks := by omega
      have hidx : (st.sttTasks i).turnIdx = i := hInv.taskIdx i hi'
      rw [hidx, Function.update_noteq (by omega : i ≠ st.nTurns)]
      have := hInv.taskPartGe hsw0 i hi'
      rwa [hidx] at this
  · intro hsw0 j hj hfin
    rw [hsw] at hsw0
    rw [hnt] at hj
    rw [hturns] at hfin
    rw [htasks]
    by_cases h : j = st.nTurns
    · subst h
      rw [Function.update_same] at hfin
      simp at hfin
    · rw [Function.update_noteq h] at hfin
      have hj' : j < st.nTurns := by omega
      rw [Function.update_noteq (by omega : j ≠ st.nTasks)]
      exact hInv.finalPhase hsw0 j hj' hfin
  · intro hsw0 j hj
    rw [hsw] at hsw0
    rw [hnt] at hj
    rw [hturns]
    by_cases h : j = st.nTurns
    · subst h
      rw [Function.update_same]
      intro p hp
      cases hp
    · rw [Function.update_noteq h]
      exact hInv.turnPart hsw0 j (by omega)
  · intro e he
    rw [hem] at he
    refine ⟨(hInv.emisWF e he).1, fun hsw0 => (hInv.emisWF e he).2 ?_⟩
    rw [hsw] at hsw0
    exact hsw0

theorem activeTurn_lt {st : SessionSt} {t : ℚ} {j : ℕ} (hInv : SessInv st t)
    (hj : st.activeTurn = some j) : j < st.nTurns := by
  have h := hInv.activeOk
  rw [hj] at h
  by_cases h0 : st.nTurns = 0
  · rw [if_pos h0] at h
    cases h
  · rw [if_neg h0] at h
    cases h
    omega

theorem sessInv_writePartial (st : SessionSt) (t : ℚ) (j : ℕ) (p : ℚ)
    (hInv : SessInv st t) (hj : j < st.nTurns) (hstamp : p ≤ t)
    (hcond : st.staleWrites = 0 →
      (∀ s ∈ (st.turns j).speech_start_ts, s ≤ p) ∧
      (st.turns j).stt_final_ts = none) :
    SessInv (st.setTurn j
      { st.turns j with stt_first_partial_ts := some p }) t := by
  have hspeech : ∀ x, ((st.setTurn j
      { st.turns j with stt_first_partial_ts := some p }).turns x).speech_start_ts
      = (st.turns x).speech_start_ts := by
    intro x
    show (Function.update st.turns j _ x).speech_start_ts = _
    by_cases h : x = j
    · subst h
      rw [Function.update_same]
    · rw [Function.update_noteq h]
  have hfinal : ∀ x, ((st.setTurn j
      { st.turns j with stt_first_partial_ts := some p }).turns x).stt_final_ts
      = (st.turns x).stt_final_ts := by
    intro x
    show (Function.update st.turns j _ x).stt_final_ts = _
    by_cases h : x = j
    · subst h
      rw [Function.update_same]
    · rw [Function.update_noteq h]
  refine ⟨hInv.counts, hInv.activeOk, hInv.taskIdx, ?_, hInv.taskStamp,
    hInv.unitStamp, ?_, ?_, ?_, ?_, hInv.emisWF⟩
  · intro j' hj'
    show TurnLe (Function.update st.turns j _ j') t
    by_cases h : j' = j
    · subst h
      rw [Function.update_same]
      obtain ⟨h1, h2, h3, h4, h5, h6⟩ := hInv.turnStamp j' hj'
      exact ⟨h1, optValLe_some hstamp, h3, h4, h5, h6⟩
    · rw [Function.update_noteq h]
      exact hInv.turnStamp j' hj'
  · intro j' hj'
    show TurnWF (Function.update st.turns j _ j')
    by_cases h : j' = j
    · subst h
      rw [Function.update_same]
      exact hInv.turnsWF j' hj'
    · rw [Function.update_noteq h]
      exact hInv.turnsWF j' hj'
  · intro hsw i hi q hq s hs
    rw [hspeech] at hs
    exact hInv.taskPartGe hsw i hi q hq s hs
  · intro hsw j' hj' hfin
    rw [hfinal] at hfin
    exact hInv.finalPhase hsw j' hj' hfin
  · intro hsw j' hj'
    show ∀ q ∈ (Function.update st.turns j _ j').stt_first_partial_ts, _
    by_cases h : j' = j
    · subst h
      rw [Function.update_same]
      intro q hq
      cases hq
      refine ⟨?_, ?_⟩
      · intro s hsmem
        rw [hspeech] at hsmem
        exact (hcond hsw).1 s hsmem
      · intro f hf
        rw [hfinal, (hcond hsw).2] at hf
        cases hf
    · rw [Function.update_noteq h]
      intro q hq
      obtain ⟨ha, hb⟩ := hInv.turnPart hsw j' hj' q hq
      refine ⟨?_, ?_⟩
      · intro s hsmem
        rw [hspeech] at hsmem
        exact ha s hsmem
      · intro f hf
        rw [hfinal] at hf
        exact hb f hf

theorem sessInv_writePartial_stale (st : SessionSt) (t : ℚ) (j : ℕ) (p : ℚ)
    (hInv : SessInv st t) (hj : j < st.nTurns) (hstamp : p ≤ t) :
    SessInv { st.setTurn j
        { st.turns j with stt_first_partial_ts := some p } with
      staleWrites := (st.setTurn j
        { st.turns j with stt_first_partial_ts := some p }).staleWrites + 1 }
      t := by
  refine ⟨hInv.counts, hInv.activeOk, hInv.taskIdx, ?_, hInv.taskStamp,
    hInv.unitStamp, ?_,
    fun hsw => absurd hsw (Nat.succ_ne_zero _),
    fun hsw => absurd hsw (Nat.succ_ne_zero _),
    fun hsw => absurd hsw (Nat.succ_ne_zero _),
    fun e he => ⟨(hInv.emisWF e he).1,
      fun hsw => absurd hsw (Nat.succ_ne_zero _)⟩⟩
  · intro j' hj'
    show TurnLe (Function.update st.turns j _ j') t
    by_cases h : j' = j
    · subst h
      rw [Function.update_same]
      obtain ⟨h1, h2, h3, h4, h5, h6⟩ := hInv.turnStamp j' hj'
      exact ⟨h1, optValLe_some hstamp, h3, h4, h5, h6⟩
    · rw [Function.update_noteq h]
      exact hInv.turnStamp j' hj'
  · intro j' hj'
    show TurnWF (Function.update st.turns j _ j')
    by_cases h : j' = j
    · subst h
      rw [Function.update_same]
      exact hInv.turnsWF j' hj'
    · rw [Function.update_noteq h]
      exact hInv.turnsWF j' hj'

theorem sttFinish_eq_none {cfg : Config} {st : SessionSt} {tk : STTTask}
    {ft : Option String} {n1 n2 : ℚ} (hact : st.activeTurn = none) :
    sttFinish cfg st tk ft n1 n2 = st := by
  unfold sttFinish
  rw [hact]

theorem sttFinish_eq_skip {cfg : Config} {st : SessionSt} {tk : STTTask}
    {ft : Option String} {n1 n2 : ℚ} {j : ℕ} (hj : st.activeTurn = some j)
    (hft : truthyStr ft = false) :
    sttFinish cfg st tk ft n1 n2 = st := by
  unfold sttFinish
  rw [hj]
  dsimp only
  rw [if_neg (by simp [hft])]

theorem sttFinish_eq_own {cfg : Config} {st : SessionSt} {tk : STTTask}
    {ft : Option String} {n1 n2 : ℚ} {j : ℕ} (hj : st.activeTurn = some j)
    (hft : truthyStr ft = true) (hidx : tk.turnIdx = j) :
    sttFinish cfg st tk ft n1 n2 =
      { st.setTurn j { st.turns j with
          stt_final_ts := some n1
          agent_decision_ts := some n2 } with
        scriptIndex := (build_reply cfg (ft.getD "") st.scriptIndex).2
        ttsUnits := Function.update (st.setTurn j { st.turns j with
            stt_final_ts := some n1
            agent_decision_ts := some n2 }).ttsUnits st.nUnits
          (newTTSUnit (build_reply cfg (ft.getD "") st.scriptIndex).1)
        nUnits := st.nUnits + 1
        currentTts := some st.nUnits } := by
  unfold sttFinish
  rw [hj]
  dsimp only
  rw [if_pos hft, if_pos hidx]
  rfl

theorem sttFinish_eq_stale {cfg : Config} {st : SessionSt} {tk : STTTask}
    {ft : Option String} {n1 n2 : ℚ} {j : ℕ} (hj : st.activeTurn = some j)
    (hft : truthyStr ft = true) (hidx : ¬tk.turnIdx = j) :
    sttFinish cfg st tk ft n1 n2 =
      { { st.setTurn j { st.turns j with
            stt_final_ts := some n1
            agent_decision_ts := some n2 } with
          scriptIndex := (build_reply cfg (ft.getD "") st.scriptIndex).2
          ttsUnits := Function.update (st.setTurn j { st.turns j with
              stt_final_ts := some n1
              agent_decision_ts := some n2 }).ttsUnits st.nUnits
            (newTTSUnit (build_reply cfg (ft.getD "") st.scriptIndex).1)
          nUnits := st.nUnits + 1
          currentTts := some st.nUnits } with
        staleWrites := st.staleWrites + 1 } := by
  unfold sttFinish
  rw [hj]
  dsimp only
  rw [if_pos hft, if_neg hidx]
  rfl

theorem sessInv_finish_own (st : SessionSt) (t n1 n2 : ℚ) (j : ℕ)
    (r : String × ℕ) (hInv : SessInv st t) (hj : j < st.nTurns)
    (ht1 : t ≤ n1) (h12 : n1 ≤ n2)
    (hphase : st.staleWrites = 0 → (st.sttTasks j).phase = 3) :
    SessInv { st.setTurn j { st.turns j with
        stt_final_ts := some n1
        agent_decision_ts := some n2 } with
      scriptIndex := r.2
      ttsUnits := Function.update (st.setTurn j { st.turns j with
          stt_final_ts := some n1
          agent_decision_ts := some n2 }).ttsUnits st.nUnits (newTTSUnit r.1)
      nUnits := st.nUnits + 1
      currentTts := some st.nUnits } n2 := by
  have ht2 : t ≤ n2 := le_trans ht1 h12
  have hspeech : ∀ x, (Function.update st.turns j
      (finishTurn (st.turns j) n1 n2) x).speech_start_ts
      = (st.turns x).speech_start_ts := by
    intro x
    by_cases h : x = j
    · subst h
      rw [Function.update_same]
      rfl
    · rw [Function.update_noteq h]
  refine ⟨hInv.counts, hInv.activeOk, hInv.taskIdx, ?_, ?_, ?_, ?_, ?_, ?_,
    ?_, ?_⟩
  · intro j' hj'
    show TurnLe (Function.update st.turns j (finishTurn (st.turns j) n1 n2)
      j') n2
    by_cases h : j' = j
    · subst h
      rw [Function.update_same]
      obtain ⟨h1, h2, h3, h4, h5, h6⟩ := hInv.turnStamp j' hj'
      exact ⟨optValLe_mono h1 ht2, optValLe_mono h2 ht2,
        optValLe_some h12, optValLe_some (le_refl n2),
        optValLe_mono h5 ht2, optValLe_mono h6 ht2⟩
    · rw [Function.update_noteq h]
      exact turnLe_mono (hInv.turnStamp j' hj') ht2
  · intro i hi
    exact optValLe_mono (hInv.taskStamp i hi) ht2
  · intro k hk
    show optValLe (Function.update st.ttsUnits st.nUnits (newTTSUnit r.1)
      k).first_audio_ts n2
    by_cases h : k = st.nUnits
    · subst h
      rw [Function.update_same]
      intro x hx
      cases hx
    · rw [Function.update_noteq h]
      have hk' : k < st.nUnits := by
        have hk1 : k < st.nUnits + 1 := hk
        omega
      exact optValLe_mono (hInv.unitStamp k hk') ht2
  · intro j' hj'
    show TurnWF (Function.update st.turns j (finishTurn (st.turns j) n1 n2) j')
    by_cases h : j' = j
    · subst h
      rw [Function.update_same]
      obtain ⟨hw1, -, -, -⟩ := hInv.turnsWF j' hj'
      obtain ⟨hs1, -, -, -, -, -⟩ := hInv.turnStamp j' hj'
      exact ⟨hw1, Iff.rfl, optLe_some_right hs1 ht1, h12⟩
    · rw [Function.update_noteq h]
      exact hInv.turnsWF j' hj'
  · intro hsw i hi q hq s hs
    have hs2 : s ∈ (Function.update st.turns j (finishTurn (st.turns j) n1 n2)
        (st.sttTasks i).turnIdx).speech_start_ts := hs
    rw [hspeech] at hs2
    exact hInv.taskPartGe hsw i hi q hq s hs2
  · intro hsw j' hj' hfin
    by_cases h : j' = j
    · subst h
      exact hphase hsw
    · refine hInv.finalPhase hsw j' hj' ?_
      have hfin2 : (Function.update st.turns j (finishTurn (st.turns j) n1 n2)
          j').stt_final_ts.isSome = true := hfin
      rwa [Function.update_noteq h] at hfin2
  · intro hsw j' hj'
    show ∀ q ∈ (Function.update st.turns j (finishTurn (st.turns j) n1 n2)
        j').stt_first_partial_ts,
      (∀ s ∈ (Function.update st.turns j (finishTurn (st.turns j) n1 n2)
        j').speech_start_ts, s ≤ q) ∧
      (∀ f ∈ (Function.update st.turns j (finishTurn (st.turns j) n1 n2)
        j').stt_final_ts, q ≤ f)
    by_cases h : j' = j
    · subst h
      rw [Function.update_same]
      intro q hq
      have hq2 : q ∈ (st.turns j').stt_first_partial_ts := hq
      obtain ⟨ha, -⟩ := hInv.turnPart hsw j' hj' q hq2
      obtain ⟨-, hs2, -, -, -, -⟩ := hInv.turnStamp j' hj'
      refine ⟨?_, ?_⟩
      · intro s hsmem
        exact ha s hsmem
      · intro f hf
        have hf2 : f ∈ (some n1 : Option ℚ) := hf
        have hfn1 : f = n1 := by
          cases hf2
          rfl
        subst hfn1
        exact le_trans (hs2 q hq2) ht1
    · rw [Function.update_noteq h]
      intro q hq
      exact hInv.turnPart hsw j' hj' q hq
  · intro e he
    exact hInv.emisWF e he

theorem sessInv_finish_stale (st : SessionSt) (t n1 n2 : ℚ) (j : ℕ)
    (r : String × ℕ) (hInv : SessInv st t) (hj : j < st.nTurns)
    (ht1 : t ≤ n1) (h12 : n1 ≤ n2) :
    SessInv { { st.setTurn j { st.turns j with
          stt_final_ts := some n1
          agent_decision_ts := some n2 } with
        scriptIndex := r.2
        ttsUnits := Function.update (st.setTurn j { st.turns j with
            stt_final_ts := some n1
            agent_decision_ts := some n2 }).ttsUnits st.nUnits
          (newTTSUnit r.1)
        nUnits := st.nUnits + 1
        currentTts := some st.nUnits } with
      staleWrites := st.staleWrites + 1 } n2 := by
  have ht2 : t ≤ n2 := le_trans ht1 h12
  refine ⟨hInv.counts, hInv.activeOk, hInv.taskIdx, ?_, ?_, ?_, ?_, ?_, ?_,
    ?_, ?_⟩
  · intro j' hj'
    show TurnLe (Function.update st.turns j (finishTurn (st.turns j) n1 n2)
      j') n2
    by_cases h : j' = j
    · subst h
      rw [Function.update_same]
      obtain ⟨h1, h2, h3, h4, h5, h6⟩ := hInv.turnStamp j' hj'
      exact ⟨optValLe_mono h1 ht2, optValLe_mono h2 ht2,
        optValLe_some h12, optValLe_some (le_refl n2),
        optValLe_mono h5 ht2, optValLe_mono h6 ht2⟩
    · rw [Function.update_noteq h]
      exact turnLe_mono (hInv.turnStamp j' hj') ht2
  · intro i hi
    exact optValLe_mono (hInv.taskStamp i hi) ht2
  · intro k hk
    show optValLe (Function.update st.ttsUnits st.nUnits (newTTSUnit r.1)
      k).first_audio_ts n2
    by_cases h : k = st.nUnits
    · subst h
      rw [Function.update_same]
      intro x hx
      cases hx
    · rw [Function.update_noteq h]
      have hk' : k < st.nUnits := by
        have hk1 : k < st.nUnits + 1 := hk
        omega
      exact optValLe_mono (hInv.unitStamp k hk') ht2
  · intro j' hj'
    show TurnWF (Function.update st.turns j (finishTurn (st.turns j) n1 n2) j')
    by_cases h : j' = j
    · subst h
      rw [Function.update_same]
      obtain ⟨hw1, -, -, -⟩ := hInv.turnsWF j' hj'
      obtain ⟨hs1, -, -, -, -, -⟩ := hInv.turnStamp j' hj'
      exact ⟨hw1, Iff.rfl, optLe_some_right hs1 ht1, h12⟩
    · rw [Function.update_noteq h]
      exact hInv.turnsWF j' hj'
  · intro hsw
    exact absurd hsw (Nat.succ_ne_zero st.staleWrites)
  · intro hsw
    exact absurd hsw (Nat.succ_ne_zero st.staleWrites)
  · intro hsw
    exact absurd hsw (Nat.succ_ne_zero st.staleWrites)
  · intro e he
    refine ⟨(hInv.emisWF e he).1, ?_⟩
    intro hsw
    exact absurd hsw (Nat.succ_ne_zero st.staleWrites)

theorem sessInv_setUnit (st : SessionSt) (t t' : ℚ) (k' : ℕ) (u : TTSUnit)
    (hInv : SessInv st t) (htt : t ≤ t')
    (hu : optValLe u.first_audio_ts t') :
    SessInv (st.setUnit k' u) t' := by
  refine ⟨hInv.counts, hInv.activeOk, hInv.taskIdx, ?_, ?_, ?_, hInv.turnsWF,
    hInv.taskPartGe, hInv.finalPhase, hInv.turnPart, hInv.emisWF⟩
  · intro j hj
    exact turnLe_mono (hInv.turnStamp j hj) htt
  · intro i hi
    exact optValLe_mono (hInv.taskStamp i hi) htt
  · intro k hk
    show optValLe (Function.update st.ttsUnits k' u k).first_audio_ts t'
    by_cases h : k = k'
    · subst h
      rw [Function.update_same]
      exact hu
    · rw [Function.update_noteq h]
      exact optValLe_mono (hInv.unitStamp k hk) htt

theorem sessInv_emit (st : SessionSt) (t now : ℚ) (j k' : ℕ)
    (hInv : SessInv st t) (ht : t ≤ now) (hj : st.activeTurn = some j) :
    SessInv { (st.setTurn j { st.turns j with
          tts_first_byte_ts := some now
          playback_start_ts := some now }).setUnit k'
        { st.unitAt k' with
          framesLeft := (st.unitAt k').framesLeft - 1
          first_audio_ts := some now
          framesSent := (st.unitAt k').framesSent + 1
          firstChunk := false } with
      emissions := st.emissions ++ [⟨j, k', { st.turns j with
          tts_first_byte_ts := some now
          playback_start_ts := some now }⟩] } now := by
  have hjlt : j < st.nTurns := activeTurn_lt hInv hj
  have hspeech : ∀ x, (Function.update st.turns j
      (audioTurn (st.turns j) now) x).speech_start_ts
      = (st.turns x).speech_start_ts := by
    intro x
    by_cases h : x = j
    · subst h
      rw [Function.update_same]
      rfl
    · rw [Function.update_noteq h]
  have hpart : ∀ x, (Function.update st.turns j
      (audioTurn (st.turns j) now) x).stt_first_partial_ts
      = (st.turns x).stt_first_partial_ts := by
    intro x
    by_cases h : x = j
    · subst h
      rw [Function.update_same]
      rfl
    · rw [Function.update_noteq h]
  have hfinal : ∀ x, (Function.update st.turns j
      (audioTurn (st.turns j) now) x).stt_final_ts
      = (st.turns x).stt_final_ts := by
    intro x
    by_cases h : x = j
    · subst h
      rw [Function.update_same]
      rfl
    · rw [Function.update_noteq h]
  refine ⟨hInv.counts, hInv.activeOk, hInv.taskIdx, ?_, ?_, ?_, ?_, ?_, ?_,
    ?_, ?_⟩
  · intro j' hj'
    show TurnLe (Function.update st.turns j (audioTurn (st.turns j) now)
      j') now
    by_cases h : j' = j
    · subst h
      rw [Function.update_same]
      obtain ⟨h1, h2, h3, h4, h5, h6⟩ := hInv.turnStamp j' hj'
      exact ⟨optValLe_mono h1 ht, optValLe_mono h2 ht, optValLe_mono h3 ht,
        optValLe_mono h4 ht, optValLe_some (le_refl now),
        optValLe_some (le_refl now)⟩
    · rw [Function.update_noteq h]
      exact turnLe_mono (hInv.turnStamp j' hj') ht
  · intro i hi
    exact optValLe_mono (hInv.taskStamp i hi) ht
  · intro k hk
    show optValLe (Function.update st.ttsUnits k'
      { st.unitAt k' with
        framesLeft := (st.unitAt k').framesLeft - 1
        first_audio_ts := some now
        framesSent := (st.unitAt k').framesSent + 1
        firstChunk := false } k).first_audio_ts now
    by_cases h : k = k'
    · subst h
      rw [Function.update_same]
      exact optValLe_some (le_refl now)
    · rw [Function.update_noteq h]
      exact optValLe_mono (hInv.unitStamp k hk) ht
  · intro j' hj'
    show TurnWF (Function.update st.turns j (audioTurn (st.turns j) now) j')
    by_cases h : j' = j
    · subst h
      rw [Function.update_same]
      exact hInv.turnsWF j' hj'
    · rw [Function.update_noteq h]
      exact hInv.turnsWF j' hj'
  · intro hsw i hi q hq s hs
    have hs2 : s ∈ (Function.update st.turns j (audioTurn (st.turns j) now)
        (st.sttTasks i).turnIdx).speech_start_ts := hs
    rw [hspeech] at hs2
    exact hInv.taskPartGe hsw i hi q hq s hs2
  · intro hsw j' hj' hfin
    refine hInv.finalPhase hsw j' hj' ?_
    have hfin2 : (Function.update st.turns j (audioTurn (st.turns j) now)
        j').stt_final_ts.isSome = true := hfin
    rwa [hfinal] at hfin2
  · intro hsw j' hj'
    show ∀ q ∈ (Function.update st.turns j (audioTurn (st.turns j) now)
        j').stt_first_partial_ts,
      (∀ s ∈ (Function.update st.turns j (audioTurn (st.turns j) now)
        j').speech_start_ts, s ≤ q) ∧
      (∀ f ∈ (Function.update st.turns j (audioTurn (st.turns j) now)
        j').stt_final_ts, q ≤ f)
    rw [hpart j', hfinal j']
    intro q hq
    obtain ⟨ha, hb⟩ := hInv.turnPart hsw j' hj' q hq
    refine ⟨?_, hb⟩
    intro s hsmem
    rw [hspeech] at hsmem
    exact ha s hsmem
  · intro e he
    have he2 : e ∈ st.emissions ++ [(⟨j, k', audioTurn (st.turns j) now⟩ :
        Emission)] := he
    rw [List.mem_append] at he2
    rcases he2 with hold | hnew
    · exact hInv.emisWF e hold
    · have heq : e = ⟨j, k', audioTurn (st.turns j) now⟩ := by
        simpa using hnew
      subst heq
      obtain ⟨w1, w2, w3, w4⟩ := hInv.turnsWF j hjlt
      obtain ⟨t1, t2, t3, t4, t5, t6⟩ := hInv.turnStamp j hjlt
      constructor
      · exact mono5_intro w3 (optLe_trans_iff w3 w4 w2)
          (optLe_some_right t1 ht) (optLe_some_right t1 ht) w4
          (optLe_some_right t3 ht) (optLe_some_right t3 ht)
          (optLe_some_right t4 ht) (optLe_some_right t4 ht)
          (optLe_refl_some now)
      · intro hsw
        have hsp : optLe (st.turns j).speech_start_ts
            (st.turns j).stt_first_partial_ts := by
          cases hp : (st.turns j).stt_first_partial_ts with
          | none => exact optLe_none_right _
          | some p =>
              cases hsv : (st.turns j).speech_start_ts with
              | none => exact optLe_none_left _
              | some s =>
                  show s ≤ p
                  refine (hInv.turnPart hsw j hjlt p ?_).1 s ?_
                  · rw [hp]
                    rfl
                  · rw [hsv]
                    rfl
        have hpf : optLe (st.turns j).stt_first_partial_ts
            (st.turns j).stt_final_ts := by
          cases hp : (st.turns j).stt_first_partial_ts with
          | none => exact optLe_none_left _
          | some p =>
              cases hfv : (st.turns j).stt_final_ts with
              | none => exact optLe_none_right _
              | some f =>
                  show p ≤ f
                  refine (hInv.turnPart hsw j hjlt p ?_).2 f ?_
                  · rw [hp]
                    rfl
                  · rw [hfv]
                    rfl
        exact mono6_intro hsp w3 (optLe_trans_iff w3 w4 w2)
          (optLe_some_right t1 ht) (optLe_some_right t1 ht) hpf
          (optLe_trans_iff hpf w4 w2) (optLe_some_right t2 ht)
          (optLe_some_right t2 ht) w4 (optLe_some_right t3 ht)
          (optLe_some_right t3 ht) (optLe_some_right t4 ht)
          (optLe_some_right t4 ht) (optLe_refl_some now)

theorem sessInv_stt (cfg : Config) (st : SessionSt) (i : ℕ) (n1 n2 t : ℚ)
    (hInv : SessInv st t) (h1 : t ≤ n1) (h2 : n1 ≤ n2) :
    SessInv (sttStep cfg st i n1 n2) n2 := by
  have h12 : t ≤ n2 := le_trans h1 h2
  rcases hph : (st.taskAt i).phase with _ | _ | _ | m
  · -- phase 0: stamp the first partial on the task
    have hi : i < st.nTasks := taskAt_lt_of_phase (by rw [hph]; decide)
    have hiT : i < st.nTurns := by
      rw [← hInv.counts]
      exact hi
    have htk : st.taskAt i = st.sttTasks i := taskAt_eq hi
    have hidx : (st.taskAt i).turnIdx = i := by
      rw [htk]
      exact hInv.taskIdx i hi
    rw [sttStep_eq_phase0 hph]
    refine sessInv_setTask st t n2 i _ hInv h12 hi hidx ?_ ?_ ?_
    · rw [← htk, hph]
      decide
    · show optValLe (if pyTruthy (st.taskAt i).first_partial_ts then
        (st.taskAt i).first_partial_ts else some n1) n2
      by_cases hq : pyTruthy (st.taskAt i).first_partial_ts = true
      · rw [if_pos hq, htk]
        exact optValLe_mono (hInv.taskStamp i hi) h12
      · rw [if_neg hq]
        exact optValLe_some (le_trans h2 (le_refl n2))
    · intro hsw p hp s hs
      have hp2 : p ∈ (if pyTruthy (st.taskAt i).first_partial_ts then
          (st.taskAt i).first_partial_ts else some n1) := hp
      by_cases hq : pyTruthy (st.taskAt i).first_partial_ts = true
      · rw [if_pos hq, htk] at hp2
        have hs2 : s ∈ (st.turns (st.sttTasks i).turnIdx).speech_start_ts := by
          rw [← htk, hidx]
          exact hs
        exact hInv.taskPartGe hsw i hi p hp2 s hs2
      · rw [if_neg hq] at hp2
        cases hp2
        exact le_trans ((hInv.turnStamp i hiT).1 s hs) h1
  · -- phase 1: copy the partial into the *active* turn
    have hi : i < st.nTasks := taskAt_lt_of_phase (by rw [hph]; decide)
    have hiT : i < st.nTurns := by
      rw [← hInv.counts]
      exact hi
    have htk : st.taskAt i = st.sttTasks i := taskAt_eq hi
    have hidx : (st.taskAt i).turnIdx = i := by
      rw [htk]
      exact hInv.taskIdx i hi
    have mk : ∀ (o : Option ℚ), (st.taskAt i).first_partial_ts = o →
        SessInv (st.setTask i
          { turnIdx := (st.taskAt i).turnIdx
            phase := 2
            first_partial_ts := o
            final_transcript := some (joinStrip (st.taskAt i).accum)
            accum := (st.taskAt i).accum }) n2 := by
      intro o ho
      refine sessInv_setTask st t n2 i _ hInv h12 hi hidx ?_ ?_ ?_
      · rw [← htk, hph]
        decide
      · show optValLe o n2
        rw [← ho, htk]
        exact optValLe_mono (hInv.taskStamp i hi) h12
      · intro hsw p hp s hs
        have hp2 : p ∈ (st.sttTasks i).first_partial_ts := by
          rw [← htk, ho]
          exact hp
        have hs2 : s ∈ (st.turns (st.sttTasks i).turnIdx).speech_start_ts := by
          rw [← htk, hidx]
          exact hs
        exact hInv.taskPartGe hsw i hi p hp2 s hs2
    rw [sttStep_eq_phase1 hph]
    dsimp only
    split
    · rename_i j heq
      split
      · rename_i hcond
        rw [Bool.and_eq_true] at hcond
        obtain ⟨hq, -⟩ := hcond
        obtain ⟨p, hfp⟩ : ∃ p, (st.taskAt i).first_partial_ts = some p := by
          cases hv : (st.taskAt i).first_partial_ts with
          | none =>
              rw [hv] at hq
              exact absurd hq (by decide)
          | some p => exact ⟨p, rfl⟩
        rw [hfp] at heq ⊢
        have hInv1 := mk (some p) hfp
        have hjlt := activeTurn_lt hInv1 heq
        have hpt : p ≤ n2 := by
          have hm := hInv.taskStamp i hi
          rw [← htk, hfp] at hm
          exact le_trans (hm p rfl) h12
        split
        · -- the task still belongs to the active turn
          rename_i hjj
          have hij : i = j := by
            rw [← hjj, hidx]
          subst hij
          refine sessInv_writePartial _ n2 i p hInv1 hjlt hpt ?_
          intro hsw
          constructor
          · intro s hs
            have hp2 : p ∈ (st.sttTasks i).first_partial_ts := by
              rw [← htk, hfp]
              rfl
            have hs2 : s ∈ (st.turns
                (st.sttTasks i).turnIdx).speech_start_ts := by
              rw [← htk, hidx]
              exact hs
            exact hInv.taskPartGe hsw i hi p hp2 s hs2
          · cases hfv : (st.turns i).stt_final_ts with
            | none => exact hfv
            | some f =>
                exfalso
                have h3 := hInv1.finalPhase hsw i hiT
                  (by show (st.turns i).stt_final_ts.isSome = true
                      rw [hfv]
                      rfl)
                rw [show ((st.setTask i
                    { turnIdx := (st.taskAt i).turnIdx
                      phase := 2
                      first_partial_ts := some p
                      final_transcript :=
                        some (joinStrip (st.taskAt i).accum)
                      accum := (st.taskAt i).accum }).sttTasks i)
                    = { turnIdx := (st.taskAt i).turnIdx
                        phase := 2
                        first_partial_ts := some p
                        final_transcript :=
                          some (joinStrip (st.taskAt i).accum)
                        accum := (st.taskAt i).accum } from
                  Function.update_same i _ _] at h3
                have h4 : (2 : ℕ) = 3 := h3
                omega
        · -- stale write for a superseded turn
          rename_i hjj
          exact sessInv_writePartial_stale _ n2 j p hInv1 hjlt hpt
      · exact mk _ rfl
    · exact mk _ rfl
  · -- phase 2: the final transcript fires; the reply/TTS hand-off runs
    have hi : i < st.nTasks := taskAt_lt_of_phase (by rw [hph]; decide)
    have htk : st.taskAt i = st.sttTasks i := taskAt_eq hi
    have hidx : (st.taskAt i).turnIdx = i := by
      rw [htk]
      exact hInv.taskIdx i hi
    have hInv1 : SessInv (st.setTask i { st.taskAt i with phase := 3 }) t := by
      refine sessInv_setTask st t t i _ hInv (le_refl t) hi hidx ?_ ?_ ?_
      · rw [← htk, hph]
        decide
      · show optValLe (st.taskAt i).first_partial_ts t
        rw [htk]
        exact hInv.taskStamp i hi
      · intro hsw p hp s hs
        have hp2 : p ∈ (st.sttTasks i).first_partial_ts := by
          have hp1 : p ∈ (st.taskAt i).first_partial_ts := hp
          rwa [htk] at hp1
        have hs2 : s ∈ (st.turns (st.sttTasks i).turnIdx).speech_start_ts := by
          rw [← htk, hidx]
          exact hs
        exact hInv.taskPartGe hsw i hi p hp2 s hs2
    rw [sttStep_eq_phase2 hph]
    rcases hact : st.activeTurn with _ | j
    · have hact1 : (st.setTask i
          { st.taskAt i with phase := 3 }).activeTurn = none := hact
      rw [sttFinish_eq_none hact1]
      exact sessInv_mono hInv1 h12
    · have hact1 : (st.setTask i
          { st.taskAt i with phase := 3 }).activeTurn = some j := hact
      have hjlt := activeTurn_lt hInv1 hact1
      cases hft : truthyStr (wait_final true
          (st.taskAt i).final_transcript) with
      | false =>
          rw [sttFinish_eq_skip hact1 hft]
          exact sessInv_mono hInv1 h12
      | true =>
          by_cases hjj : (st.taskAt i).turnIdx = j
          · have hjj1 : ({ st.taskAt i with phase := 3 } : STTTask).turnIdx
                = j := hjj
            rw [sttFinish_eq_own hact1 hft hjj1]
            refine sessInv_finish_own _ t n1 n2 j _ hInv1 hjlt h1 h2 ?_
            intro _
            have hij : i = j := by
              rw [← hjj, hidx]
            subst hij
            show (Function.update st.sttTasks i
              { st.taskAt i with phase := 3 } i).phase = 3
            rw [Function.update_same]
          · have hjj1 : ¬({ st.taskAt i with phase := 3 } : STTTask).turnIdx
                = j := hjj
            rw [sttFinish_eq_stale hact1 hft hjj1]
            exact sessInv_finish_stale _ t n1 n2 j _ hInv1 hjlt h1 h2
  · -- phase ≥ 3: finished task, no effect
    rw [sttStep_eq_done hph]
    exact sessInv_mono hInv h12

theorem sessInv_tts (st : SessionSt) (k' : ℕ) (now t : ℚ)
    (hInv : SessInv st t) (hE : EmitInv st) (h1 : t ≤ now) :
    SessInv (ttsStep st k' now) now := by
  by_cases hdone : (st.unitAt k').done = true
  · rw [ttsStep_eq_of_done hdone]
    exact sessInv_mono hInv h1
  · have hdf : (st.unitAt k').done = false := by
      cases hv : (st.unitAt k').done with
      | false => rfl
      | true => exact absurd hv hdone
    have hk : k' < st.nUnits := unitAt_lt_of_live hdf
    have hua : st.unitAt k' = st.ttsUnits k' := by
      unfold SessionSt.unitAt
      rw [if_pos hk]
    by_cases hcan : (st.unitAt k').cancelFlag = true
    · rw [ttsStep_eq_of_cancel hdone hcan]
      refine sessInv_setUnit st t now k' _ hInv h1 ?_
      show optValLe (st.unitAt k').first_audio_ts now
      rw [hua]
      exact optValLe_mono (hInv.unitStamp k' hk) h1
    · by_cases hfl : (st.unitAt k').framesLeft = 0
      · rw [ttsStep_eq_of_exhausted hdone hcan hfl]
        refine sessInv_setUnit st t now k' _ hInv h1 ?_
        show optValLe (st.unitAt k').first_audio_ts now
        rw [hua]
        exact optValLe_mono (hInv.unitStamp k' hk) h1
      · have hnu : 0 < st.nUnits := lt_of_le_of_lt (Nat.zero_le k') hk
        have hsome := hE.uact hnu
        rcases hact : st.activeTurn with _ | j
        · rw [hact] at hsome
          exact absurd hsome (by decide)
        · cases hfc : (st.unitAt k').firstChunk with
          | false =>
              rw [ttsStep_eq_yield hdone hcan hfl hact hfc]
              refine sessInv_setUnit st t now k' _ hInv h1 ?_
              show optValLe (match (st.unitAt k').first_audio_ts with
                | none => some now
                | some x => some x) now
              cases hfa : (st.unitAt k').first_audio_ts with
              | none =>
                  exact optValLe_some (le_refl now)
              | some x =>
                  show optValLe (some x) now
                  refine optValLe_some ?_
                  have hb := hInv.unitStamp k' hk
                  rw [← hua, hfa] at hb
                  exact le_trans (hb x rfl) h1
          | true =>
              have hsent : (st.unitAt k').framesSent = 0 := by
                have h := hE.fchunk k'
                rw [hfc] at h
                simpa using h.symm
              have hfa : (st.unitAt k').first_audio_ts = none := by
                have h := hE.faud k'
                rw [hsent] at h
                cases hv : (st.unitAt k').first_audio_ts with
                | none => rfl
                | some x =>
                    rw [hv] at h
                    simp at h
              rw [ttsStep_eq_emit hdone hcan hfl hact hfc hfa]
              exact sessInv_emit st t now j k' hInv h1 hact

theorem sessInv_step_act (cfg : Config) (st : SessionSt) (a : Act) (t : ℚ)
    (hInv : SessInv st t) (hE : EmitInv st) (h1 : t ≤ actStart a)
    (h2 : actStart a ≤ actEnd a) :
    SessInv (step cfg st a) (actEnd a) := by
  cases a with
  | speech now => exact sessInv_speech cfg st now ["audio"] t hInv h1
  | stt i now now2 => exact sessInv_stt cfg st i now now2 t hInv h1 h2
  | tts k now => exact sessInv_tts st k now t hInv hE h1

theorem sessInv_run (cfg : Config) (tr : List Act) :
    ∀ (st : SessionSt) (t : ℚ), SessInv st t → EmitInv st →
      validFrom t tr = true → ∃ u, SessInv (run cfg st tr) u := by
  induction tr with
  | nil =>
      intro st t h _ _
      exact ⟨t, h⟩
  | cons a r ih =>
      intro st t h hE hv
      simp only [validFrom, Bool.and_eq_true, decide_eq_true_eq] at hv
      obtain ⟨⟨⟨h1, h0⟩, h2⟩, hr⟩ := hv
      exact ih (step cfg st a) (actEnd a)
        (sessInv_step_act cfg st a t h hE h1 h2)
        (emitInv_step cfg st a hE) hr

set_option maxRecDepth 100000 in
/-- C4: the original claim is false.  With barge-in superseding a turn whose
transcription task is still running (`staleTrace1`, a valid schedule), the
stale task writes its first-partial timestamp (2) into the *new* active turn
(whose speech start is 3), and the turn is emitted with
`stt_first_partial_ts < speech_start_ts`: the emitted milestone list is not
monotone. -/
theorem claim_c4_counterexample :
    validFrom 0 staleTrace1 = true ∧
    (run cfgE initSt staleTrace1).emissions.length = 1 ∧
    ((run cfgE initSt staleTrace1).emissions.getD 0
        ⟨0, 0, default⟩).snapshot.speech_start_ts = some 3 ∧
    ((run cfgE initSt staleTrace1).emissions.getD 0
        ⟨0, 0, default⟩).snapshot.stt_first_partial_ts = some 2 ∧
    ¬ Mono6 ((run cfgE initSt staleTrace1).emissions.getD 0
        ⟨0, 0, default⟩).snapshot := by
  decide

/-- C4 (amended): for every valid schedule of a session's tasks, every
emitted LatencyTurn has monotone milestones over the five fields other than
`stt_first_partial_ts`; and if no transcription task of a superseded turn has
written into the session (`staleWrites = 0`, in particular in every run
without barge-in races), all six milestones are monotone. -/
theorem claim_c4_amended (cfg : Config) (tr : List Act) (e : Emission)
    (hv : validFrom 0 tr = true)
    (he : e ∈ (run cfg initSt tr).emissions) :
    Mono5 e.snapshot ∧
      ((run cfg initSt tr).staleWrites = 0 → Mono6 e.snapshot) := by
  obtain ⟨u, hInv⟩ := sessInv_run cfg tr initSt 0 sessInv_init emitInv_init hv
  exact hInv.emisWF e he

set_option maxRecDepth 100000 in
/-- Witness for C4 (amended): the single-turn schedule `emitTrace` is valid,
its one emitted event is a member of the final emissions list, and the
amended theorem applies to it. -/
theorem claim_c4_witness :
    validFrom 0 emitTrace = true ∧
    ((run cfgE initSt emitTrace).emissions.getD 0 ⟨0, 0, default⟩) ∈
      (run cfgE initSt emitTrace).emissions ∧
    (Mono5 ((run cfgE initSt emitTrace).emissions.getD 0
        ⟨0, 0, default⟩).snapshot ∧
      ((run cfgE initSt emitTrace).staleWrites = 0 →
        Mono6 ((run cfgE initSt emitTrace).emissions.getD 0
          ⟨0, 0, default⟩).snapshot)) :=
  ⟨by decide, by decide,
    claim_c4_amended cfgE emitTrace _ (by decide) (by decide)⟩
